import Mathlib

/-!
# bankMotorCredito: the credit-limit handlers of `cmd/api/handlers.go`

A shallow embedding of `verifyCreditLimit`, `checkCredit` and `status`, and
the properties the specification states about them.

## How the Go code is embedded

* `float64` values are the rationals they denote. Every arithmetic operation
  computes the exact result and rounds it to the nearest binary64 value, ties
  to even (`F64.round`), as IEEE 754 and the Go specification prescribe.
  Subnormals are modelled (the exponent is clamped at `-1022`); overflow to
  infinity is not, because no value of this program comes near `2 ^ 1024`:
  `len` of a Go string is below `2 ^ 63`.
* The Go specification lets a compiler fuse `x*y + z` into one operation with a
  single rounding (the `gc` compiler does so on arm64, not on amd64). The
  only fusable expression is the discount rate, and `verifyCreditLimit`
  takes a flag `fma` choosing between the two evaluations; every theorem
  holds for both.
* `rnd.Float64()` is an input: the draw `u`. The generator documents its
  result as a `float64` in `[0, 1)`.
* A Go `string` is a list of bytes and `len` is its length.
* The collaborators of the handlers (`chi.URLParam`, `response.JSON`,
  `app.badRequest`, `app.serverError`) are not part of the file. A handler
  is embedded as the list of calls it makes to them, in order; the path
  parameter and the value `response.JSON` returns are inputs.
-/

namespace F64

/-- Round a rational to the nearest integer, a tie going to the even one. -/
def rne (x : ℚ) : ℤ :=
  let f := ⌊x⌋
  let r := x - f
  if r < 1 / 2 then f
  else if 1 / 2 < r then f + 1
  else if f % 2 = 0 then f
  else f + 1

/-- The exponent of the unit in the last place of the binary64 values around
`q`: 52 below the exponent of `q`, which is clamped at `-1022` (below it the
values are subnormal and share the unit `2 ^ (-1074)`). -/
def ulpExp (q : ℚ) : ℤ := max (Int.log 2 |q|) (-1022) - 52

/-- Rounding to binary64: the nearest multiple of the unit in the last
place, ties to even. -/
def round (q : ℚ) : ℚ := rne (q / 2 ^ ulpExp q) * 2 ^ ulpExp q

/-- The `float64` sum `x + y`. -/
def add (x y : ℚ) : ℚ := round (x + y)

/-- The `float64` difference `x - y`. -/
def sub (x y : ℚ) : ℚ := round (x - y)

/-- The `float64` product `x * y`. -/
def mul (x y : ℚ) : ℚ := round (x * y)

/-- The `float64` quotient `x / y`. -/
def div (x y : ℚ) : ℚ := round (x / y)

/-- The expression `z + x*y`: fused into one rounding when `fused`, else
the product and the sum are rounded one after the other. -/
def mulAdd (fused : Bool) (x y z : ℚ) : ℚ :=
  if fused then round (z + x * y) else add z (mul x y)

/-- The conversion `float64(n)` of an integer. -/
def ofInt (n : ℤ) : ℚ := round n

/-- The conversion `int(x)` of a `float64`: truncation toward zero. -/
def toInt (x : ℚ) : ℤ := if 0 ≤ x then ⌊x⌋ else ⌈x⌉

end F64

/-- A Go `string`: a sequence of bytes. -/
abbrev GoString := List UInt8

/-- Go's `len` of a string: the number of its bytes, an `int`. -/
def len (s : GoString) : ℤ := s.length

/-- A Go `error` value, by its message. -/
structure GoError where
  msg : String
deriving DecidableEq

/-- The call `fmt.Errorf(msg)` with a format string without verbs. -/
def Errorf (msg : String) : GoError := ⟨msg⟩

/-- The struct `CreditLimitResult`. -/
structure CreditLimitResult where
  PaymentValue : ℚ
  Installments : ℤ
  DebtValue : ℚ
deriving DecidableEq

/-- The method `verifyCreditLimit`. The draw `u` is what `rnd.Float64()`
returns; `fma` tells whether the compiler fused `0.05 + u*(0.20-0.05)`.
The constant expression `0.20-0.05` is evaluated exactly before it
becomes a `float64`, as Go does for untyped constants. -/
def verifyCreditLimit (fma : Bool) (debtID : GoString) (u : ℚ) :
    CreditLimitResult × Option GoError :=
  let debtValue := F64.mul (F64.ofInt (len debtID)) 200
  let discountRate :=
    F64.mulAdd fma u (F64.round (20 / 100 - 5 / 100)) (F64.round (5 / 100))
  let newValueToPay := F64.mul debtValue (F64.sub 1 discountRate)
  let newValueToPay :=
    if newValueToPay ≥ debtValue then F64.mul debtValue (F64.round (95 / 100))
    else newValueToPay
  let installments := F64.toInt (F64.div newValueToPay 1000)
  let installments := if installments < 1 then 1 else installments
  let installments := if installments > 12 then 12 else installments
  ({ PaymentValue := newValueToPay
     Installments := installments
     DebtValue := debtValue }, none)

/-- The variable `discountRate` of `verifyCreditLimit`:
`0.05 + rnd.Float64()*(0.20-0.05)`. -/
def discountRate (fma : Bool) (u : ℚ) : ℚ :=
  F64.mulAdd fma u (F64.round (20 / 100 - 5 / 100)) (F64.round (5 / 100))

/-- The variable `newValueToPay` of `verifyCreditLimit` as first assigned,
before the clamp: `debtValue * (1 - discountRate)`. -/
def newValueToPay (fma : Bool) (debtID : GoString) (u : ℚ) : ℚ :=
  F64.mul (F64.mul (F64.ofInt (len debtID)) 200) (F64.sub 1 (discountRate fma u))

/-- A possible result of `rnd.Float64()`: a `float64` in `[0, 1)`. -/
def IsDraw (u : ℚ) : Prop := F64.round u = u ∧ 0 ≤ u ∧ u < 1

instance IsDraw.decidable (u : ℚ) : Decidable (IsDraw u) := by
  unfold IsDraw
  infer_instance

/-- A value stored in the response mapping: a string or an integer. -/
inductive Value where
  | str (s : GoString)
  | int (n : ℤ)
deriving DecidableEq

/-- A call a handler makes, in the order of the source: the two error
reporters of the application, the evaluation, and `response.JSON` with
its status code and mapping (the entries in source order). -/
inductive Call where
  | badRequest (err : GoError)
  | serverError (err : GoError)
  | verifyCreditLimit (debtID : GoString)
  | JSON (status : ℕ) (data : List (String × Value))
deriving DecidableEq

/-- The bytes of an ASCII string constant of the source. -/
def lit (s : String) : GoString := s.toList.map fun c => c.toNat.toUInt8

/-- The call `fmt.Sprintf("%.2f", x)`: the exact decimal expansion of the
`float64` rounded to two places, ties to even, with at least one digit
before the point. -/
def Sprintf2f (x : ℚ) : GoString :=
  let n := (F64.rne (|x| * 100)).toNat
  (if x < 0 then lit "-" else []) ++ lit (Nat.repr (n / 100)) ++ lit "."
    ++ lit (Nat.repr (n % 100 / 10)) ++ lit (Nat.repr (n % 10))

/-- The constant `http.StatusOK`. -/
def StatusOK : ℕ := 200

/-- The handler `checkCredit`. `debtID` is what `chi.URLParam(r, "debtId")`
returns, `u` the draw of the evaluation, `jsonErr` what `response.JSON`
returns when it is called. The result is the list of calls made. -/
def checkCredit (fma : Bool) (debtID : GoString) (u : ℚ)
    (jsonErr : Option GoError) : List Call :=
  if debtID = [] then
    [Call.badRequest (Errorf "debtId is required")]
  else
    match verifyCreditLimit fma debtID u with
    | (_, some err) => [Call.verifyCreditLimit debtID, Call.serverError err]
    | (creditResult, none) =>
      let data : List (String × Value) :=
        [("DebtID", Value.str debtID),
         ("PaymentValue", Value.str (Sprintf2f creditResult.PaymentValue)),
         ("Installments", Value.int creditResult.Installments),
         ("DebtValue", Value.str (Sprintf2f creditResult.DebtValue))]
      match jsonErr with
      | some err =>
        [Call.verifyCreditLimit debtID, Call.JSON StatusOK data, Call.serverError err]
      | none => [Call.verifyCreditLimit debtID, Call.JSON StatusOK data]

/-- The handler `status`. It reads nothing from the request; `jsonErr` is
what `response.JSON` returns. The result is the list of calls made. -/
def status (jsonErr : Option GoError) : List Call :=
  let data : List (String × Value) := [("Status", Value.str (lit "OK"))]
  match jsonErr with
  | some err => [Call.JSON StatusOK data, Call.serverError err]
  | none => [Call.JSON StatusOK data]

/-! ## Rounding to the nearest integer -/

namespace F64

/-- The rounded integer is within one half of the argument. -/
theorem rne_bounds (x : ℚ) : x - 1 / 2 ≤ rne x ∧ (rne x : ℚ) ≤ x + 1 / 2 := by
  have h1 := Int.floor_le x
  have h2 := Int.lt_floor_add_one x
  unfold rne
  simp only
  split_ifs with ha hb hc
  · constructor <;> linarith
  · constructor <;> push_cast <;> linarith
  · constructor <;> linarith
  · constructor <;> push_cast <;> linarith

/-- An integer rounds to itself. -/
theorem rne_intCast (n : ℤ) : rne (n : ℚ) = n := by
  unfold rne
  simp

/-- Rounding to the nearest integer is monotone. -/
theorem rne_mono {x y : ℚ} (h : x ≤ y) : rne x ≤ rne y := by
  by_contra hlt
  push_neg at hlt
  have hx := (rne_bounds x).2
  have hy := (rne_bounds y).1
  have h1 : (rne y : ℚ) + 1 ≤ rne x := by exact_mod_cast hlt
  have hxy : x = y := by linarith
  rw [hxy] at hlt
  exact lt_irrefl _ hlt

/-- An integer below the argument is below its rounding. -/
theorem le_rne {x : ℚ} {n : ℤ} (h : (n : ℚ) ≤ x) : n ≤ rne x := by
  have := rne_mono h
  rwa [rne_intCast] at this

/-- An integer above the argument is above its rounding. -/
theorem rne_le {x : ℚ} {n : ℤ} (h : x ≤ (n : ℚ)) : rne x ≤ n := by
  have := rne_mono h
  rwa [rne_intCast] at this

/-- An argument less than one half away from an integer rounds to it. -/
theorem rne_eq_of_near {x : ℚ} {n : ℤ} (h1 : (n : ℚ) - 1 / 2 < x) (h2 : x < n + 1 / 2) :
    rne x = n := by
  have hb := rne_bounds x
  have ha : (rne x : ℚ) < n + 1 := by linarith
  have hc : (n : ℚ) - 1 < rne x := by linarith
  have ha' : rne x < n + 1 := by exact_mod_cast ha
  have hc' : n - 1 < rne x := by exact_mod_cast hc
  omega

/-- A tie above an even integer rounds down to it. -/
theorem rne_tie_even {x : ℚ} {n : ℤ} (h : x = n + 1 / 2) (hn : n % 2 = 0) : rne x = n := by
  have hf : ⌊x⌋ = n := by
    rw [Int.floor_eq_iff]; constructor <;> rw [h] <;> linarith
  unfold rne
  simp only [hf, h]
  norm_num [hn]

/-- A tie above an odd integer rounds up to the next one. -/
theorem rne_tie_odd {x : ℚ} {n : ℤ} (h : x = n + 1 / 2) (hn : n % 2 = 1) : rne x = n + 1 := by
  have hf : ⌊x⌋ = n := by
    rw [Int.floor_eq_iff]; constructor <;> rw [h] <;> linarith
  unfold rne
  simp only [hf, h]
  norm_num [hn]

end F64

/-! ## Rounding to binary64: sign, monotonicity, exact values -/

namespace F64

/-- Powers of two are positive. -/
theorem two_zpow_pos (e : ℤ) : (0 : ℚ) < 2 ^ e := zpow_pos (by norm_num) e

/-- Powers of two grow with the exponent. -/
theorem two_zpow_le {a b : ℤ} (h : a ≤ b) : (2 : ℚ) ^ a ≤ 2 ^ b :=
  zpow_le_zpow_right₀ (by norm_num) h

/-- The unit in the last place is at least `2 ^ (-1074)`. -/
theorem ulpExp_ge (q : ℚ) : -1074 ≤ ulpExp q := by
  unfold ulpExp
  have := le_max_right (Int.log 2 |q|) (-1022)
  omega

/-- A positive value lies below `2 ^ 53` units in the last place. -/
theorem lt_ulp_top {q : ℚ} (hq : 0 < q) : q < 2 ^ (ulpExp q + 53) := by
  have h := Int.lt_zpow_succ_log_self (b := 2) (by norm_num) q
  have hle : Int.log 2 q + 1 ≤ ulpExp q + 53 := by
    unfold ulpExp
    rw [abs_of_pos hq]
    have := le_max_left (Int.log 2 q) (-1022)
    omega
  calc q < ((2 : ℕ) : ℚ) ^ (Int.log 2 q + 1) := h
    _ = (2 : ℚ) ^ (Int.log 2 q + 1) := by norm_num
    _ ≤ 2 ^ (ulpExp q + 53) := two_zpow_le hle

/-- A positive value whose exponent is `k` has its unit at `k - 52`. -/
theorem ulpExp_eq {q : ℚ} {k : ℤ} (hk : -1022 ≤ k) (hlo : (2 : ℚ) ^ k ≤ q)
    (hhi : q < 2 ^ (k + 1)) : ulpExp q = k - 52 := by
  have hq : 0 < q := lt_of_lt_of_le (two_zpow_pos k) hlo
  have h1 : k ≤ Int.log 2 q := by
    rw [← Int.zpow_le_iff_le_log (by norm_num) hq]
    simpa using hlo
  have h2 : Int.log 2 q < k + 1 := by
    rw [← Int.lt_zpow_iff_log_lt (by norm_num) hq]
    simpa using hhi
  unfold ulpExp
  rw [abs_of_pos hq]
  have : Int.log 2 q = k := by omega
  rw [this, max_eq_left hk]

/-- A normal value is at least `2 ^ 52` units in the last place. -/
theorem ulp_bot_le {q : ℚ} (hq : (2 : ℚ) ^ (-1022 : ℤ) ≤ q) : 2 ^ (ulpExp q + 52) ≤ q := by
  have hpos : 0 < q := lt_of_lt_of_le (two_zpow_pos _) hq
  have h1 : (-1022 : ℤ) ≤ Int.log 2 q := by
    rw [← Int.zpow_le_iff_le_log (by norm_num) hpos]
    simpa using hq
  have h := Int.zpow_log_le_self (b := 2) (by norm_num) hpos
  have he : ulpExp q + 52 = Int.log 2 q := by
    unfold ulpExp
    rw [abs_of_pos hpos, max_eq_left h1]
    ring
  rw [he]
  simpa using h

/-- The unit in the last place grows with a positive value. -/
theorem ulpExp_mono {a b : ℚ} (ha : 0 < a) (hab : a ≤ b) : ulpExp a ≤ ulpExp b := by
  have hb : 0 < b := lt_of_lt_of_le ha hab
  unfold ulpExp
  rw [abs_of_pos ha, abs_of_pos hb]
  have := Int.log_mono_right (b := 2) ha hab
  have := max_le_max_right (-1022 : ℤ) this
  omega

/-- Zero is a `float64`. -/
theorem round_zero : round 0 = 0 := by
  unfold round
  simp [rne_intCast, show rne (0 : ℚ) = 0 from by simpa using rne_intCast 0]

/-- Rounding keeps a value non-negative. -/
theorem round_nonneg {q : ℚ} (hq : 0 ≤ q) : 0 ≤ round q := by
  unfold round
  have h0 : (0 : ℚ) ≤ q / 2 ^ ulpExp q := div_nonneg hq (two_zpow_pos _).le
  have h1 : (0 : ℤ) ≤ rne (q / 2 ^ ulpExp q) := le_rne (by simpa using h0)
  exact mul_nonneg (by exact_mod_cast h1) (two_zpow_pos _).le

/-- Rounding to binary64 is monotone on the non-negative rationals. -/
theorem round_mono {a b : ℚ} (ha : 0 ≤ a) (hab : a ≤ b) : round a ≤ round b := by
  rcases ha.eq_or_lt with h0 | hpos
  · rw [← h0, round_zero]
    exact round_nonneg (h0 ▸ hab)
  have hb : 0 < b := lt_of_lt_of_le hpos hab
  rcases (ulpExp_mono hpos hab).eq_or_lt with he | he
  · unfold round
    rw [he]
    have hdiv : a / 2 ^ ulpExp b ≤ b / 2 ^ ulpExp b :=
      div_le_div_of_nonneg_right hab (two_zpow_pos _).le
    have := rne_mono hdiv
    exact mul_le_mul_of_nonneg_right (by exact_mod_cast this) (two_zpow_pos _).le
  · -- the binade of `b` lies above that of `a`: a power of two separates the roundings
    have hnorm : (2 : ℚ) ^ (-1022 : ℤ) ≤ b := by
      by_contra hlt
      push_neg at hlt
      have h2 : Int.log 2 b < -1022 := by
        rw [← Int.lt_zpow_iff_log_lt (by norm_num) hb]
        simpa using hlt
      have : ulpExp b = -1074 := by
        unfold ulpExp
        rw [abs_of_pos hb, max_eq_right (by omega)]
        norm_num
      have := ulpExp_ge a
      omega
    have hbl := ulp_bot_le hnorm
    have hau := lt_ulp_top hpos
    have hA : round a ≤ 2 ^ (ulpExp a + 53) := by
      unfold round
      have hx : a / 2 ^ ulpExp a ≤ ((2 ^ 53 : ℤ) : ℚ) := by
        rw [div_le_iff₀ (two_zpow_pos _)]
        have : (2 : ℚ) ^ (ulpExp a + 53) = ((2 ^ 53 : ℤ) : ℚ) * 2 ^ ulpExp a := by
          rw [zpow_add₀ (by norm_num)]; push_cast; ring
        rw [← this]; exact hau.le
      have h1 := rne_le hx
      have h2 : ((rne (a / 2 ^ ulpExp a) : ℤ) : ℚ) ≤ ((2 ^ 53 : ℤ) : ℚ) := by exact_mod_cast h1
      calc (rne (a / 2 ^ ulpExp a) : ℚ) * 2 ^ ulpExp a
          ≤ ((2 ^ 53 : ℤ) : ℚ) * 2 ^ ulpExp a :=
            mul_le_mul_of_nonneg_right h2 (two_zpow_pos _).le
        _ = 2 ^ (ulpExp a + 53) := by
            rw [zpow_add₀ (by norm_num)]; push_cast; ring
    have hB : (2 : ℚ) ^ (ulpExp b + 52) ≤ round b := by
      unfold round
      have hx : ((2 ^ 52 : ℤ) : ℚ) ≤ b / 2 ^ ulpExp b := by
        rw [le_div_iff₀ (two_zpow_pos _)]
        have : (2 : ℚ) ^ (ulpExp b + 52) = ((2 ^ 52 : ℤ) : ℚ) * 2 ^ ulpExp b := by
          rw [zpow_add₀ (by norm_num)]; push_cast; ring
        rw [← this]; exact hbl
      have h1 := le_rne hx
      have h2 : ((2 ^ 52 : ℤ) : ℚ) ≤ ((rne (b / 2 ^ ulpExp b) : ℤ) : ℚ) := by exact_mod_cast h1
      calc (2 : ℚ) ^ (ulpExp b + 52) = ((2 ^ 52 : ℤ) : ℚ) * 2 ^ ulpExp b := by
            rw [zpow_add₀ (by norm_num)]; push_cast; ring
        _ ≤ (rne (b / 2 ^ ulpExp b) : ℚ) * 2 ^ ulpExp b :=
            mul_le_mul_of_nonneg_right h2 (two_zpow_pos _).le
    calc round a ≤ 2 ^ (ulpExp a + 53) := hA
      _ ≤ 2 ^ (ulpExp b + 52) := two_zpow_le (by omega)
      _ ≤ round b := hB

end F64

namespace F64

/-- Splitting a natural offset off an exponent. -/
theorem two_zpow_add_nat (e : ℤ) (k : ℕ) : (2 : ℚ) ^ (e + (k : ℤ)) = 2 ^ e * 2 ^ k := by
  rw [zpow_add₀ (by norm_num), zpow_natCast]

/-- On a binade `[2 ^ k, 2 ^ (k + 1))` of normal values rounding is rounding
to a multiple of `2 ^ (k - 52)`. -/
theorem round_eq_of_binade {q : ℚ} (k : ℤ) (hk : -1022 ≤ k) (hlo : (2 : ℚ) ^ k ≤ q)
    (hhi : q < 2 ^ (k + 1)) : round q = rne (q / 2 ^ (k - 52)) * 2 ^ (k - 52) := by
  unfold round
  rw [ulpExp_eq hk hlo hhi]

/-- The value `n * 2 ^ e` with `n` of at most 53 bits is a `float64`. -/
theorem round_repr (n e : ℤ) (hn0 : 0 ≤ n) (hn : n ≤ 2 ^ 53) (he : -1074 ≤ e) :
    round (n * 2 ^ e) = n * 2 ^ e := by
  rcases hn0.eq_or_lt with h0 | hpos
  · rw [← h0]; simp [round_zero]
  have hq : (0 : ℚ) < n * 2 ^ e := mul_pos (by exact_mod_cast hpos) (two_zpow_pos e)
  set q : ℚ := n * 2 ^ e with hqdef
  rcases hn.eq_or_lt with htop | hlt
  · -- `n = 2 ^ 53`: the value is the power of two `2 ^ (e + 53)`
    have hq2 : q = 2 ^ (e + 53) := by
      rw [hqdef, htop, show e + 53 = e + ((53 : ℕ) : ℤ) by norm_num, two_zpow_add_nat]
      push_cast; ring
    have hu : ulpExp q = e + 1 := by
      have := ulpExp_eq (q := q) (k := e + 53) (by omega) (by rw [hq2])
        (by rw [hq2]; exact zpow_lt_zpow_right₀ (by norm_num) (by omega))
      omega
    unfold round
    rw [hu]
    have hsplit : (2 : ℚ) ^ (e + 53) = 2 ^ (e + 1) * 2 ^ 52 := by
      rw [show e + 53 = (e + 1) + ((52 : ℕ) : ℤ) by norm_num; ring, two_zpow_add_nat]
    have hx : q / 2 ^ (e + 1) = ((2 ^ 52 : ℤ) : ℚ) := by
      rw [hq2, div_eq_iff (two_zpow_pos _).ne', hsplit]
      push_cast; ring
    rw [hx, rne_intCast, hq2, hsplit]
    push_cast; ring
  · -- `n < 2 ^ 53`: the unit in the last place is at most `2 ^ e`
    have hle : ulpExp q ≤ e := by
      by_contra hgt
      push_neg at hgt
      have hnormal : (2 : ℚ) ^ (-1022 : ℤ) ≤ q := by
        by_contra hsub
        push_neg at hsub
        have h2 : Int.log 2 q < -1022 := by
          rw [← Int.lt_zpow_iff_log_lt (by norm_num) hq]
          simpa using hsub
        have : ulpExp q = -1074 := by
          unfold ulpExp
          rw [abs_of_pos hq, max_eq_right (by omega)]
          norm_num
        omega
      have h1 := ulp_bot_le hnormal
      have h2 : q < 2 ^ (e + 53) := by
        rw [hqdef, show e + 53 = e + ((53 : ℕ) : ℤ) by norm_num, two_zpow_add_nat]
        have : (n : ℚ) < 2 ^ 53 := by exact_mod_cast hlt
        calc (n : ℚ) * 2 ^ e < 2 ^ 53 * 2 ^ e :=
              mul_lt_mul_of_pos_right this (two_zpow_pos e)
          _ = 2 ^ e * 2 ^ 53 := by ring
      have h3 : (2 : ℚ) ^ (ulpExp q + 52) < 2 ^ (e + 53) := lt_of_le_of_lt h1 h2
      have h4 := (zpow_lt_zpow_iff_right₀ (show (1 : ℚ) < 2 by norm_num)).1 h3
      omega
    obtain ⟨d, hd⟩ : ∃ d : ℕ, e = ulpExp q + d := ⟨(e - ulpExp q).toNat, by omega⟩
    unfold round
    have hx : q / 2 ^ ulpExp q = ((n * 2 ^ d : ℤ) : ℚ) := by
      rw [div_eq_iff (two_zpow_pos _).ne', hqdef]
      nth_rewrite 1 [hd]
      rw [zpow_add₀ (by norm_num)]
      push_cast
      rw [zpow_natCast]; ring
    rw [hx, rne_intCast, hqdef]
    nth_rewrite 2 [hd]
    rw [zpow_add₀ (by norm_num)]
    push_cast
    rw [zpow_natCast]; ring

/-- An integer of at most 53 bits converts to `float64` exactly. -/
theorem round_intCast (n : ℤ) (hn0 : 0 ≤ n) (hn : n ≤ 2 ^ 53) : round (n : ℚ) = n := by
  simpa using round_repr n 0 hn0 hn (by norm_num)

/-- The relative error of rounding a normal value is at most `2 ^ (-53)`. -/
theorem round_rel_error {q : ℚ} (hq : (2 : ℚ) ^ (-1022 : ℤ) ≤ q) :
    q * (1 - 2 ^ (-53 : ℤ)) ≤ round q ∧ round q ≤ q * (1 + 2 ^ (-53 : ℤ)) := by
  have hb := ulp_bot_le hq
  have hr := rne_bounds (q / 2 ^ ulpExp q)
  have hp := two_zpow_pos (ulpExp q)
  have hhalf : (2 : ℚ) ^ ulpExp q * (1 / 2) ≤ q * 2 ^ (-53 : ℤ) := by
    have : (2 : ℚ) ^ ulpExp q * (1 / 2) = 2 ^ (ulpExp q + 52) * 2 ^ (-53 : ℤ) := by
      rw [zpow_add₀ (by norm_num)]; norm_num; ring
    rw [this]
    exact mul_le_mul_of_nonneg_right hb (two_zpow_pos _).le
  have hqe : q / 2 ^ ulpExp q * 2 ^ ulpExp q = q := div_mul_cancel₀ q hp.ne'
  unfold round
  constructor
  · have := mul_le_mul_of_nonneg_right hr.1 hp.le
    nlinarith
  · have := mul_le_mul_of_nonneg_right hr.2 hp.le
    nlinarith

end F64

/-! ## The constants of `verifyCreditLimit` as binary64 values -/

namespace F64

/-- Evaluation of a rounding: the binade of the value and the nearest
multiple of its unit determine the result. -/
theorem round_eval {q : ℚ} (k n : ℤ) (hk : -1022 ≤ k) (hlo : (2 : ℚ) ^ k ≤ q)
    (hhi : q < 2 ^ (k + 1)) (hn : rne (q / 2 ^ (k - 52)) = n) :
    round q = n * 2 ^ (k - 52) := by
  rw [round_eq_of_binade k hk hlo hhi, hn]

/-- The constant `0.05` as a `float64`. -/
theorem lit_005 : round (5 / 100) = 3602879701896397 / 2 ^ 56 := by
  rw [round_eval (-5) 7205759403792794 (by norm_num) (by norm_num) (by norm_num)
    (rne_eq_of_near (by norm_num) (by norm_num))]
  norm_num

/-- The constant `0.20-0.05` as a `float64`. -/
theorem lit_015 : round (20 / 100 - 5 / 100) = 5404319552844595 / 2 ^ 55 := by
  rw [round_eval (-3) 5404319552844595 (by norm_num) (by norm_num) (by norm_num)
    (rne_eq_of_near (by norm_num) (by norm_num))]
  norm_num

/-- The constant `0.95` as a `float64`. -/
theorem lit_095 : round (95 / 100) = 4278419646001971 / 2 ^ 52 := by
  rw [round_eval (-1) 8556839292003942 (by norm_num) (by norm_num) (by norm_num)
    (rne_eq_of_near (by norm_num) (by norm_num))]
  norm_num

/-- The constant `0.80` as a `float64`. -/
theorem lit_080 : round (80 / 100) = 3602879701896397 / 2 ^ 52 := by
  rw [round_eval (-1) 7205759403792794 (by norm_num) (by norm_num) (by norm_num)
    (rne_eq_of_near (by norm_num) (by norm_num))]
  norm_num

/-- The sum of the `float64` constants `0.05` and `0.15` is a tie and rounds
to the `float64` constant `0.20`. -/
theorem round_005_add_015 :
    round (3602879701896397 / 2 ^ 56 + 5404319552844595 / 2 ^ 55) =
      3602879701896397 / 2 ^ 54 := by
  rw [round_eval (-3) 7205759403792794 (by norm_num) (by norm_num) (by norm_num)
    (by
      have := rne_tie_odd (x := (3602879701896397 / 2 ^ 56 + 5404319552844595 / 2 ^ 55)
        / 2 ^ ((-3 : ℤ) - 52)) (n := 7205759403792793) (by norm_num) (by norm_num)
      simpa using this)]
  norm_num

/-- One minus the `float64` constant `0.20` is a tie and rounds to the
`float64` constant `0.80`. -/
theorem round_one_sub_020 :
    round (1 - 3602879701896397 / 2 ^ 54) = 3602879701896397 / 2 ^ 52 := by
  rw [round_eval (-1) 7205759403792794 (by norm_num) (by norm_num) (by norm_num)
    (by
      have := rne_tie_odd (x := (1 - 3602879701896397 / 2 ^ 54) / 2 ^ ((-1 : ℤ) - 52))
        (n := 7205759403792793) (by norm_num) (by norm_num)
      simpa using this)]
  norm_num

/-- One minus the `float64` constant `0.05` rounds to the `float64`
constant `0.95`. -/
theorem round_one_sub_005 :
    round (1 - 3602879701896397 / 2 ^ 56) = 4278419646001971 / 2 ^ 52 := by
  rw [round_eval (-1) 8556839292003942 (by norm_num) (by norm_num) (by norm_num)
    (rne_eq_of_near (by norm_num) (by norm_num))]
  norm_num

end F64

/-! ## The steps of `verifyCreditLimit` -/

/-- The discount rate lies between the `float64` constants `0.05` and `0.20`,
whether or not the multiply-add is fused. -/
theorem discountRate_bounds (fma : Bool) (u : ℚ) (hu0 : 0 ≤ u) (hu1 : u ≤ 1) :
    3602879701896397 / 2 ^ 56 ≤
        F64.mulAdd fma u (F64.round (20 / 100 - 5 / 100)) (F64.round (5 / 100)) ∧
      F64.mulAdd fma u (F64.round (20 / 100 - 5 / 100)) (F64.round (5 / 100)) ≤
        3602879701896397 / 2 ^ 54 := by
  rw [F64.lit_015, F64.lit_005]
  have h05 : F64.round (3602879701896397 / 2 ^ 56) = 3602879701896397 / 2 ^ 56 := by
    have := F64.round_repr 3602879701896397 (-56) (by norm_num) (by norm_num) (by norm_num)
    norm_num at this ⊢
    exact this
  have h15 : F64.round (5404319552844595 / 2 ^ 55) = 5404319552844595 / 2 ^ 55 := by
    have := F64.round_repr 5404319552844595 (-55) (by norm_num) (by norm_num) (by norm_num)
    norm_num at this ⊢
    exact this
  have hprod0 : (0 : ℚ) ≤ u * (5404319552844595 / 2 ^ 55) := by positivity
  have hprod1 : u * (5404319552844595 / 2 ^ 55) ≤ (5404319552844595 / 2 ^ 55 : ℚ) := by
    have : (0 : ℚ) ≤ 5404319552844595 / 2 ^ 55 := by positivity
    nlinarith
  cases fma
  · -- the product and the sum are rounded separately
    simp only [F64.mulAdd, F64.add, F64.mul, Bool.false_eq_true, if_false]
    have hp0 := F64.round_nonneg hprod0
    have hp1 : F64.round (u * (5404319552844595 / 2 ^ 55)) ≤ 5404319552844595 / 2 ^ 55 := by
      have := F64.round_mono hprod0 hprod1
      rwa [h15] at this
    constructor
    · have := F64.round_mono (a := 3602879701896397 / 2 ^ 56)
        (b := 3602879701896397 / 2 ^ 56 + F64.round (u * (5404319552844595 / 2 ^ 55)))
        (by positivity) (by linarith)
      rwa [h05] at this
    · have := F64.round_mono
        (a := 3602879701896397 / 2 ^ 56 + F64.round (u * (5404319552844595 / 2 ^ 55)))
        (b := 3602879701896397 / 2 ^ 56 + 5404319552844595 / 2 ^ 55)
        (by positivity) (by linarith)
      rwa [F64.round_005_add_015] at this
  · -- one rounding of the exact multiply-add
    simp only [F64.mulAdd, if_true]
    constructor
    · have := F64.round_mono (a := 3602879701896397 / 2 ^ 56)
        (b := 3602879701896397 / 2 ^ 56 + u * (5404319552844595 / 2 ^ 55))
        (by positivity) (by linarith)
      rwa [h05] at this
    · have := F64.round_mono
        (a := 3602879701896397 / 2 ^ 56 + u * (5404319552844595 / 2 ^ 55))
        (b := 3602879701896397 / 2 ^ 56 + 5404319552844595 / 2 ^ 55)
        (by positivity) (by linarith)
      rwa [F64.round_005_add_015] at this

/-- The factor `1 - discountRate` lies between the `float64` constants
`0.80` and `0.95`. -/
theorem factor_bounds (fma : Bool) (u : ℚ) (hu0 : 0 ≤ u) (hu1 : u ≤ 1) :
    F64.round (80 / 100) ≤
        F64.sub 1 (F64.mulAdd fma u (F64.round (20 / 100 - 5 / 100)) (F64.round (5 / 100))) ∧
      F64.sub 1 (F64.mulAdd fma u (F64.round (20 / 100 - 5 / 100)) (F64.round (5 / 100))) ≤
        F64.round (95 / 100) := by
  obtain ⟨hlo, hhi⟩ := discountRate_bounds fma u hu0 hu1
  rw [F64.lit_080, F64.lit_095]
  unfold F64.sub
  constructor
  · have := F64.round_mono (a := 1 - 3602879701896397 / 2 ^ 54)
      (b := 1 - F64.mulAdd fma u (F64.round (20 / 100 - 5 / 100)) (F64.round (5 / 100)))
      (by norm_num) (by linarith)
    rwa [F64.round_one_sub_020] at this
  · have h0 : (0 : ℚ) ≤
        1 - F64.mulAdd fma u (F64.round (20 / 100 - 5 / 100)) (F64.round (5 / 100)) := by
      have : (3602879701896397 / 2 ^ 54 : ℚ) ≤ 1 := by norm_num
      linarith
    have := F64.round_mono h0
      (b := 1 - 3602879701896397 / 2 ^ 56) (by linarith)
    rwa [F64.round_one_sub_005] at this

/-- The debt value is `float64(len(debtID)) * 200.0`, whatever the draw. -/
theorem debtValue_eq (fma : Bool) (debtID : GoString) (u : ℚ) :
    (verifyCreditLimit fma debtID u).1.DebtValue = F64.mul (F64.ofInt (len debtID)) 200 :=
  rfl

/-- The installments are the truncated quotient clamped to `[1, 12]`. -/
theorem installments_eq (fma : Bool) (debtID : GoString) (u : ℚ) :
    (verifyCreditLimit fma debtID u).1.Installments =
      min 12 (max 1
        (F64.toInt (F64.div (verifyCreditLimit fma debtID u).1.PaymentValue 1000))) := by
  simp only [verifyCreditLimit]
  split_ifs <;> omega

/-- The payment value is the debt value times a factor between the `float64`
constants `0.80` and `0.95`, rounded. -/
theorem paymentValue_eq (fma : Bool) (debtID : GoString) (u : ℚ) (hu0 : 0 ≤ u) (hu1 : u ≤ 1) :
    ∃ m : ℚ, F64.round (80 / 100) ≤ m ∧ m ≤ F64.round (95 / 100) ∧
      (verifyCreditLimit fma debtID u).1.PaymentValue =
        F64.mul (verifyCreditLimit fma debtID u).1.DebtValue m := by
  obtain ⟨hlo, hhi⟩ := factor_bounds fma u hu0 hu1
  simp only [verifyCreditLimit]
  split_ifs with h
  · exact ⟨F64.round (95 / 100), hlo.trans hhi, le_refl _, rfl⟩
  · exact ⟨_, hlo, hhi, rfl⟩

/-- The debt value is never negative. -/
theorem debtValue_nonneg (fma : Bool) (debtID : GoString) (u : ℚ) :
    0 ≤ (verifyCreditLimit fma debtID u).1.DebtValue := by
  rw [debtValue_eq]
  unfold F64.mul F64.ofInt len
  exact F64.round_nonneg (mul_nonneg (F64.round_nonneg (by positivity)) (by norm_num))

/-- A non-empty identifier has a debt value of at least `200`. -/
theorem debtValue_ge (fma : Bool) (debtID : GoString) (u : ℚ) (hne : debtID ≠ []) :
    200 ≤ (verifyCreditLimit fma debtID u).1.DebtValue := by
  rw [debtValue_eq]
  unfold F64.mul F64.ofInt len
  have hlen : (1 : ℚ) ≤ ((debtID.length : ℤ) : ℚ) := by
    have : 0 < debtID.length := List.length_pos.2 hne
    exact_mod_cast this
  have h1 : (1 : ℚ) ≤ F64.round ((debtID.length : ℤ) : ℚ) := by
    have := F64.round_mono (a := 1) (by norm_num) hlen
    have h := F64.round_intCast 1 (by norm_num) (by norm_num)
    norm_num at h
    rwa [h] at this
  have h2 := F64.round_mono (a := 200) (b := F64.round ((debtID.length : ℤ) : ℚ) * 200)
    (by norm_num) (by linarith)
  have h := F64.round_intCast 200 (by norm_num) (by norm_num)
  norm_num at h
  rwa [h] at h2

/-- Up to a length of `2 ^ 45` the debt value is the integer `len * 200`:
neither the conversion nor the product rounds. -/
theorem debtValue_exact (fma : Bool) (debtID : GoString) (u : ℚ) (hlen : len debtID ≤ 2 ^ 45) :
    (verifyCreditLimit fma debtID u).1.DebtValue = (len debtID : ℚ) * 200 := by
  rw [debtValue_eq]
  unfold F64.mul F64.ofInt
  have h0 : 0 ≤ len debtID := by unfold len; positivity
  rw [F64.round_intCast (len debtID) h0 (by omega)]
  have := F64.round_intCast (len debtID * 200) (by omega) (by omega)
  push_cast at this
  exact this

/-- The payment value of a non-empty identifier is at least `160`. -/
theorem paymentValue_ge (fma : Bool) (debtID : GoString) (u : ℚ) (hne : debtID ≠ [])
    (hu0 : 0 ≤ u) (hu1 : u ≤ 1) : 160 ≤ (verifyCreditLimit fma debtID u).1.PaymentValue := by
  obtain ⟨m, hm1, hm2, hpv⟩ := paymentValue_eq fma debtID u hu0 hu1
  have hdv := debtValue_ge fma debtID u hne
  rw [hpv]
  unfold F64.mul
  rw [F64.lit_080] at hm1
  have hprod : (160 : ℚ) ≤ (verifyCreditLimit fma debtID u).1.DebtValue * m := by
    have : (0 : ℚ) ≤ m := le_trans (by norm_num) hm1
    have h1 : (200 : ℚ) * m ≤ (verifyCreditLimit fma debtID u).1.DebtValue * m :=
      mul_le_mul_of_nonneg_right hdv this
    have h2 : (160 : ℚ) ≤ 200 * (3602879701896397 / 2 ^ 52) := by norm_num
    nlinarith
  have := F64.round_mono (a := 160) (by norm_num) hprod
  have h := F64.round_intCast 160 (by norm_num) (by norm_num)
  norm_num at h
  rwa [h] at this

/-- Claim C1: for a non-empty identifier and a draw in `[0, 1)` the payment
value is positive and at most the debt value. -/
theorem paymentValue_pos_le_debtValue (fma : Bool) (debtID : GoString) (u : ℚ)
    (hne : debtID ≠ []) (hu0 : 0 ≤ u) (hu1 : u < 1) :
    0 < (verifyCreditLimit fma debtID u).1.PaymentValue ∧
      (verifyCreditLimit fma debtID u).1.PaymentValue ≤
        (verifyCreditLimit fma debtID u).1.DebtValue := by
  have hge := paymentValue_ge fma debtID u hne hu0 hu1.le
  refine ⟨by linarith, ?_⟩
  obtain ⟨m, hm1, hm2, hpv⟩ := paymentValue_eq fma debtID u hu0 hu1.le
  have hdv := debtValue_ge fma debtID u hne
  rw [hpv]
  unfold F64.mul
  rw [F64.lit_080] at hm1
  rw [F64.lit_095] at hm2
  have hm0 : (0 : ℚ) ≤ m := le_trans (by norm_num) hm1
  have hprod : (2 : ℚ) ^ (-1022 : ℤ) ≤ (verifyCreditLimit fma debtID u).1.DebtValue * m := by
    have h1 : (200 : ℚ) * m ≤ (verifyCreditLimit fma debtID u).1.DebtValue * m :=
      mul_le_mul_of_nonneg_right hdv hm0
    have h2 : (2 : ℚ) ^ (-1022 : ℤ) ≤ 1 := zpow_le_one_of_nonpos₀ (by norm_num) (by norm_num)
    nlinarith
  have herr := (F64.round_rel_error hprod).2
  have hfac : m * (1 + 2 ^ (-53 : ℤ)) ≤ 1 := by
    have : (4278419646001971 / 2 ^ 52 : ℚ) * (1 + 2 ^ (-53 : ℤ)) ≤ 1 := by norm_num
    have h53 : (0 : ℚ) ≤ 1 + 2 ^ (-53 : ℤ) := by positivity
    exact (mul_le_mul_of_nonneg_right hm2 h53).trans this
  have hdv0 : (0 : ℚ) ≤ (verifyCreditLimit fma debtID u).1.DebtValue := by linarith
  calc F64.round ((verifyCreditLimit fma debtID u).1.DebtValue * m)
      ≤ (verifyCreditLimit fma debtID u).1.DebtValue * m * (1 + 2 ^ (-53 : ℤ)) := herr
    _ = (verifyCreditLimit fma debtID u).1.DebtValue * (m * (1 + 2 ^ (-53 : ℤ))) := by ring
    _ ≤ (verifyCreditLimit fma debtID u).1.DebtValue * 1 :=
        mul_le_mul_of_nonneg_left hfac hdv0
    _ = (verifyCreditLimit fma debtID u).1.DebtValue := by ring

/-- Witness of claim C1: the identifier `abc` and the draw `1/4`. -/
theorem paymentValue_pos_le_debtValue_witness :
    ([97, 98, 99] : GoString) ≠ [] ∧ (0 : ℚ) ≤ 1 / 4 ∧ (1 / 4 : ℚ) < 1 ∧
      0 < (verifyCreditLimit false [97, 98, 99] (1 / 4)).1.PaymentValue ∧
      (verifyCreditLimit false [97, 98, 99] (1 / 4)).1.PaymentValue ≤
        (verifyCreditLimit false [97, 98, 99] (1 / 4)).1.DebtValue :=
  ⟨by simp, by norm_num, by norm_num,
    paymentValue_pos_le_debtValue false [97, 98, 99] (1 / 4) (by simp) (by norm_num)
      (by norm_num)⟩

/-- The payment value lies between the `float64` products of the debt value
with `0.80` and with `0.95`. -/
theorem paymentValue_float_band (fma : Bool) (debtID : GoString) (u : ℚ)
    (hu0 : 0 ≤ u) (hu1 : u ≤ 1) :
    F64.mul (verifyCreditLimit fma debtID u).1.DebtValue (F64.round (80 / 100)) ≤
        (verifyCreditLimit fma debtID u).1.PaymentValue ∧
      (verifyCreditLimit fma debtID u).1.PaymentValue ≤
        F64.mul (verifyCreditLimit fma debtID u).1.DebtValue (F64.round (95 / 100)) := by
  obtain ⟨m, hm1, hm2, hpv⟩ := paymentValue_eq fma debtID u hu0 hu1
  have hdv := debtValue_nonneg fma debtID u
  have h80 : (0 : ℚ) ≤ F64.round (80 / 100) := F64.round_nonneg (by norm_num)
  rw [hpv]
  unfold F64.mul
  constructor
  · exact F64.round_mono (mul_nonneg hdv h80) (mul_le_mul_of_nonneg_left hm1 hdv)
  · exact F64.round_mono (mul_nonneg hdv (h80.trans hm1)) (mul_le_mul_of_nonneg_left hm2 hdv)

/-- Up to a length of `2 ^ 45` the payment value lies between `len * 160` and
`len * 190` as exact numbers. -/
theorem paymentValue_exact_band (fma : Bool) (debtID : GoString) (u : ℚ)
    (hu0 : 0 ≤ u) (hu1 : u ≤ 1) (hlen : len debtID ≤ 2 ^ 45) :
    (len debtID : ℚ) * 160 ≤ (verifyCreditLimit fma debtID u).1.PaymentValue ∧
      (verifyCreditLimit fma debtID u).1.PaymentValue ≤ (len debtID : ℚ) * 190 := by
  obtain ⟨hlo, hhi⟩ := paymentValue_float_band fma debtID u hu0 hu1
  have hdv := debtValue_exact fma debtID u hlen
  have h0 : 0 ≤ len debtID := by unfold len; positivity
  have h0q : (0 : ℚ) ≤ (len debtID : ℚ) := by exact_mod_cast h0
  rw [hdv, F64.lit_080] at hlo
  rw [hdv, F64.lit_095] at hhi
  unfold F64.mul at hlo hhi
  constructor
  · have h160 := F64.round_intCast (len debtID * 160) (by omega) (by omega)
    push_cast at h160
    have := F64.round_mono (a := (len debtID : ℚ) * 160)
      (b := (len debtID : ℚ) * 200 * (3602879701896397 / 2 ^ 52))
      (by positivity) (by
        have : (160 : ℚ) ≤ 200 * (3602879701896397 / 2 ^ 52) := by norm_num
        nlinarith)
    rw [h160] at this
    exact this.trans hlo
  · have h190 := F64.round_intCast (len debtID * 190) (by omega) (by omega)
    push_cast at h190
    have := F64.round_mono (a := (len debtID : ℚ) * 200 * (4278419646001971 / 2 ^ 52))
      (b := (len debtID : ℚ) * 190)
      (by positivity) (by
        have : (200 : ℚ) * (4278419646001971 / 2 ^ 52) ≤ 190 := by norm_num
        nlinarith)
    rw [h190] at this
    exact hhi.trans this

/-- Claim C2: for a draw in `[0, 1)` the payment value is at least
`DebtValue * 0.80` and at most `DebtValue * 0.95`, the products taken in
`float64` as the Go expressions read; up to a length of `2 ^ 45` the same
bounds hold for the exact products. -/
theorem paymentValue_discount_band (fma : Bool) (debtID : GoString) (u : ℚ)
    (hu0 : 0 ≤ u) (hu1 : u < 1) :
    (F64.mul (verifyCreditLimit fma debtID u).1.DebtValue (F64.round (80 / 100)) ≤
        (verifyCreditLimit fma debtID u).1.PaymentValue ∧
      (verifyCreditLimit fma debtID u).1.PaymentValue ≤
        F64.mul (verifyCreditLimit fma debtID u).1.DebtValue (F64.round (95 / 100))) ∧
    (len debtID ≤ 2 ^ 45 →
      (verifyCreditLimit fma debtID u).1.DebtValue * (80 / 100) ≤
          (verifyCreditLimit fma debtID u).1.PaymentValue ∧
        (verifyCreditLimit fma debtID u).1.PaymentValue ≤
          (verifyCreditLimit fma debtID u).1.DebtValue * (95 / 100)) := by
  refine ⟨paymentValue_float_band fma debtID u hu0 hu1.le, fun hlen => ?_⟩
  obtain ⟨hlo, hhi⟩ := paymentValue_exact_band fma debtID u hu0 hu1.le hlen
  rw [debtValue_exact fma debtID u hlen]
  constructor <;> linarith

/-- Witness of claim C2: the identifier `abc` and the draw `1/2`. -/
theorem paymentValue_discount_band_witness :
    (0 : ℚ) ≤ 1 / 2 ∧ (1 / 2 : ℚ) < 1 ∧ len [97, 98, 99] ≤ 2 ^ 45 ∧
      (verifyCreditLimit false [97, 98, 99] (1 / 2)).1.DebtValue * (80 / 100) ≤
        (verifyCreditLimit false [97, 98, 99] (1 / 2)).1.PaymentValue ∧
      (verifyCreditLimit false [97, 98, 99] (1 / 2)).1.PaymentValue ≤
        (verifyCreditLimit false [97, 98, 99] (1 / 2)).1.DebtValue * (95 / 100) :=
  ⟨by norm_num, by norm_num, by decide,
    (paymentValue_discount_band false [97, 98, 99] (1 / 2) (by norm_num) (by norm_num)).2
      (by decide)⟩

/-- Claim C3: the installments are always between 1 and 12, for every
identifier and every draw. -/
theorem installments_range (fma : Bool) (debtID : GoString) (u : ℚ) :
    1 ≤ (verifyCreditLimit fma debtID u).1.Installments ∧
      (verifyCreditLimit fma debtID u).1.Installments ≤ 12 := by
  rw [installments_eq]
  omega

/-- Claim C4: for every identifier and every draw the debt value is the
`float64` product `float64(len(debtID)) * 200.0`, and up to a length of
`2 ^ 45` that product is exact: the debt value is the number `len * 200`. -/
theorem debtValue_is_len_times_200 (fma : Bool) (debtID : GoString) (u : ℚ) :
    (verifyCreditLimit fma debtID u).1.DebtValue = F64.mul (F64.ofInt (len debtID)) 200 ∧
      (len debtID ≤ 2 ^ 45 →
        (verifyCreditLimit fma debtID u).1.DebtValue = (len debtID : ℚ) * 200) :=
  ⟨debtValue_eq fma debtID u, debtValue_exact fma debtID u⟩

/-- Witness of claim C4: the identifier `abc` has the debt value `600`. -/
theorem debtValue_is_len_times_200_witness :
    len [97, 98, 99] ≤ 2 ^ 45 ∧
      (verifyCreditLimit false [97, 98, 99] (1 / 2)).1.DebtValue =
        (len [97, 98, 99] : ℚ) * 200 :=
  ⟨by decide, (debtValue_is_len_times_200 false [97, 98, 99] (1 / 2)).2 (by decide)⟩

/-! ## The handler `checkCredit` -/

/-- The evaluation returns a nil error. -/
theorem verifyCreditLimit_err (fma : Bool) (debtID : GoString) (u : ℚ) :
    (verifyCreditLimit fma debtID u).2 = none :=
  rfl

/-- The calls of `checkCredit` on an empty path parameter. -/
theorem checkCredit_nil (fma : Bool) (u : ℚ) (jsonErr : Option GoError) :
    checkCredit fma [] u jsonErr = [Call.badRequest (Errorf "debtId is required")] := by
  simp [checkCredit]

/-- The calls of `checkCredit` on a non-empty path parameter: the
evaluation, the response, and the server error when the writer fails. -/
theorem checkCredit_cons (fma : Bool) (debtID : GoString) (u : ℚ) (jsonErr : Option GoError)
    (hne : debtID ≠ []) :
    checkCredit fma debtID u jsonErr =
      Call.verifyCreditLimit debtID ::
        Call.JSON StatusOK
          [("DebtID", Value.str debtID),
           ("PaymentValue",
             Value.str (Sprintf2f (verifyCreditLimit fma debtID u).1.PaymentValue)),
           ("Installments", Value.int (verifyCreditLimit fma debtID u).1.Installments),
           ("DebtValue",
             Value.str (Sprintf2f (verifyCreditLimit fma debtID u).1.DebtValue))] ::
        (match jsonErr with
          | some err => [Call.serverError err]
          | none => []) := by
  have he := verifyCreditLimit_err fma debtID u
  unfold checkCredit
  rw [if_neg hne]
  rcases hv : verifyCreditLimit fma debtID u with ⟨r, e⟩
  rw [hv] at he
  simp only at he
  subst he
  cases jsonErr <;> rfl

/-- Claim C5: the evaluation returns a nil error for every identifier, empty
or not, and every draw; so each call of `serverError` that `checkCredit`
makes reports the error returned by a preceding `response.JSON`, never an
evaluation error. -/
theorem verifyCreditLimit_never_fails (fma : Bool) (debtID : GoString) (u : ℚ) :
    (verifyCreditLimit fma debtID u).2 = none ∧
      ∀ (jsonErr : Option GoError) (e : GoError),
        Call.serverError e ∈ checkCredit fma debtID u jsonErr →
          jsonErr = some e ∧ ∃ data, Call.JSON StatusOK data ∈ checkCredit fma debtID u jsonErr := by
  refine ⟨rfl, fun jsonErr e hmem => ?_⟩
  by_cases hne : debtID = []
  · subst hne
    rw [checkCredit_nil] at hmem
    simp at hmem
  · rw [checkCredit_cons fma debtID u jsonErr hne] at hmem ⊢
    cases jsonErr with
    | none => simp at hmem
    | some err =>
      simp at hmem
      subst hmem
      exact ⟨rfl, _, List.mem_cons_of_mem _ (List.mem_cons_self _ _)⟩

/-- Witness of claim C5: the writer fails on the identifier `abc`, and the
server error reported is the writer's. -/
theorem verifyCreditLimit_never_fails_witness :
    Call.serverError ⟨"write failed"⟩ ∈
        checkCredit false [97, 98, 99] (1 / 2) (some ⟨"write failed"⟩) ∧
      (some ⟨"write failed"⟩ : Option GoError) = some ⟨"write failed"⟩ ∧
      ∃ data, Call.JSON StatusOK data ∈
        checkCredit false [97, 98, 99] (1 / 2) (some ⟨"write failed"⟩) :=
  have hmem : Call.serverError ⟨"write failed"⟩ ∈
      checkCredit false [97, 98, 99] (1 / 2) (some ⟨"write failed"⟩) := by
    rw [checkCredit_cons false [97, 98, 99] (1 / 2) _ (by simp)]
    simp
  ⟨hmem, (verifyCreditLimit_never_fails false [97, 98, 99] (1 / 2)).2 _ _ hmem⟩

/-- Claim C6: `checkCredit` calls `badRequest` with the error "debtId is
required" exactly when the path parameter is empty, it calls `badRequest`
with no other error, and on an empty parameter it neither calls the
evaluation nor writes a response. -/
theorem checkCredit_badRequest_iff (fma : Bool) (debtID : GoString) (u : ℚ)
    (jsonErr : Option GoError) :
    (Call.badRequest (Errorf "debtId is required") ∈ checkCredit fma debtID u jsonErr ↔
        debtID = []) ∧
      (∀ e, Call.badRequest e ∈ checkCredit fma debtID u jsonErr →
        e.msg = "debtId is required") ∧
      (debtID = [] →
        (∀ d, Call.verifyCreditLimit d ∉ checkCredit fma debtID u jsonErr) ∧
          ∀ status data, Call.JSON status data ∉ checkCredit fma debtID u jsonErr) := by
  by_cases hne : debtID = []
  · subst hne
    rw [checkCredit_nil]
    simp [Errorf]
  · rw [checkCredit_cons fma debtID u jsonErr hne]
    cases jsonErr <;> simp [hne]

/-- Witness of claim C6: the empty path parameter. -/
theorem checkCredit_badRequest_iff_witness :
    ([] : GoString) = [] ∧
      (∀ d, Call.verifyCreditLimit d ∉ checkCredit false [] (1 / 2) none) ∧
        ∀ status data, Call.JSON status data ∉ checkCredit false [] (1 / 2) none :=
  ⟨rfl, (checkCredit_badRequest_iff false [] (1 / 2) none).2.2 rfl⟩

/-- Claim C7: on a non-empty path parameter the calls of `response.JSON`
that `checkCredit` makes are exactly the one with status 200 and the four
entries `DebtID` (the parameter itself), `PaymentValue` and `DebtValue` (the
computed values formatted with two decimals) and `Installments` (the
computed integer). -/
theorem checkCredit_response (fma : Bool) (debtID : GoString) (u : ℚ)
    (jsonErr : Option GoError) (hne : debtID ≠ []) (status : ℕ)
    (data : List (String × Value)) :
    Call.JSON status data ∈ checkCredit fma debtID u jsonErr ↔
      status = 200 ∧
        data =
          [("DebtID", Value.str debtID),
           ("PaymentValue",
             Value.str (Sprintf2f (verifyCreditLimit fma debtID u).1.PaymentValue)),
           ("Installments", Value.int (verifyCreditLimit fma debtID u).1.Installments),
           ("DebtValue",
             Value.str (Sprintf2f (verifyCreditLimit fma debtID u).1.DebtValue))] := by
  rw [checkCredit_cons fma debtID u jsonErr hne]
  cases jsonErr <;> simp [StatusOK]

/-- Witness of claim C7: the identifier `abc` is answered with status 200
and its four entries. -/
theorem checkCredit_response_witness :
    ([97, 98, 99] : GoString) ≠ [] ∧
      Call.JSON 200
          [("DebtID", Value.str [97, 98, 99]),
           ("PaymentValue",
             Value.str (Sprintf2f (verifyCreditLimit false [97, 98, 99] (1 / 2)).1.PaymentValue)),
           ("Installments",
             Value.int (verifyCreditLimit false [97, 98, 99] (1 / 2)).1.Installments),
           ("DebtValue",
             Value.str (Sprintf2f (verifyCreditLimit false [97, 98, 99] (1 / 2)).1.DebtValue))] ∈
        checkCredit false [97, 98, 99] (1 / 2) none :=
  ⟨by simp, (checkCredit_response false [97, 98, 99] (1 / 2) none (by simp) _ _).2 ⟨rfl, rfl⟩⟩

/-! ## Identifiers of a given length -/

/-- The conversion to `int` is not below an integer `n` once the dividend
reaches `1000 * n`. -/
theorem le_toInt_div {x : ℚ} (n : ℤ) (hn0 : 0 ≤ n) (hn : n ≤ 2 ^ 53)
    (hx : 1000 * (n : ℚ) ≤ x) : n ≤ F64.toInt (F64.div x 1000) := by
  have hn0q : (0 : ℚ) ≤ n := by exact_mod_cast hn0
  have hq : (n : ℚ) ≤ F64.div x 1000 := by
    unfold F64.div
    have := F64.round_mono (a := (n : ℚ)) (b := x / 1000) hn0q
      (by rw [le_div_iff₀ (by norm_num)]; linarith)
    rwa [F64.round_intCast n hn0 hn] at this
  unfold F64.toInt
  rw [if_pos (hn0q.trans hq)]
  exact Int.le_floor.2 hq

/-- The conversion to `int` is at most an integer `n` while the dividend
stays within `1000 * c` for a `float64` value `c` below `n + 1`. -/
theorem toInt_div_le_of_repr {x : ℚ} (n : ℤ) (c : ℚ) (hc : F64.round c = c)
    (hcn : c < (n : ℚ) + 1) (hx0 : 0 ≤ x) (hx : x ≤ 1000 * c) :
    F64.toInt (F64.div x 1000) ≤ n := by
  have hq0 : (0 : ℚ) ≤ F64.div x 1000 := F64.round_nonneg (by positivity)
  have hq : F64.div x 1000 ≤ c := by
    unfold F64.div
    have := F64.round_mono (a := x / 1000) (b := c) (by positivity)
      (by rw [div_le_iff₀ (by norm_num)]; linarith)
    rwa [hc] at this
  unfold F64.toInt
  rw [if_pos hq0]
  have : ⌊F64.div x 1000⌋ < n + 1 := by
    rw [Int.floor_lt]
    push_cast
    linarith
  omega

/-- The conversion to `int` is at most an integer `n` while the dividend
stays within `1000 * n + 500`. -/
theorem toInt_div_le {x : ℚ} (n : ℤ) (hn0 : 0 ≤ n) (hn : n < 2 ^ 52) (hx0 : 0 ≤ x)
    (hx : x ≤ 1000 * (n : ℚ) + 500) : F64.toInt (F64.div x 1000) ≤ n := by
  have hhalf : F64.round ((n : ℚ) + 1 / 2) = (n : ℚ) + 1 / 2 := by
    have := F64.round_repr (2 * n + 1) (-1) (by omega) (by omega) (by norm_num)
    have he : (((2 * n + 1 : ℤ) : ℚ)) * 2 ^ (-1 : ℤ) = (n : ℚ) + 1 / 2 := by
      push_cast
      rw [zpow_neg_one]
      ring
    rwa [he] at this
  exact toInt_div_le_of_repr n ((n : ℚ) + 1 / 2) hhalf (by linarith) hx0 (by linarith)

/-- The value `1/2` is a draw. -/
theorem isDraw_half : IsDraw (1 / 2) := by
  refine ⟨?_, by norm_num, by norm_num⟩
  have := F64.round_repr 1 (-1) (by norm_num) (by norm_num) (by norm_num)
  norm_num at this ⊢
  exact this

/-- The value `0` is a draw. -/
theorem isDraw_zero : IsDraw 0 := ⟨F64.round_zero, le_refl _, by norm_num⟩

/-- At the draw `0` the factor `1 - discountRate` is the `float64` constant
`0.95`. -/
theorem factor_at_zero (fma : Bool) :
    F64.sub 1 (F64.mulAdd fma 0 (F64.round (20 / 100 - 5 / 100)) (F64.round (5 / 100))) =
      4278419646001971 / 2 ^ 52 := by
  have h05 : F64.round (3602879701896397 / 2 ^ 56) = 3602879701896397 / 2 ^ 56 := by
    have := F64.round_repr 3602879701896397 (-56) (by norm_num) (by norm_num) (by norm_num)
    norm_num at this ⊢
    exact this
  have hd : F64.mulAdd fma 0 (F64.round (20 / 100 - 5 / 100)) (F64.round (5 / 100)) =
      3602879701896397 / 2 ^ 56 := by
    rw [F64.lit_005]
    cases fma
    · simp only [F64.mulAdd, F64.add, F64.mul, Bool.false_eq_true, if_false, zero_mul,
        F64.round_zero, add_zero]
      exact h05
    · simp only [F64.mulAdd, if_true, zero_mul, add_zero]
      exact h05
  rw [hd]
  exact F64.round_one_sub_005

/-- At the draw `1/2` the factor `1 - discountRate` is `7/8`: the discount
rate is `1/8` exactly. -/
theorem factor_at_half (fma : Bool) :
    F64.sub 1 (F64.mulAdd fma (1 / 2) (F64.round (20 / 100 - 5 / 100)) (F64.round (5 / 100))) =
      7 / 8 := by
  have h8 : F64.round (1 / 8) = 1 / 8 := by
    have := F64.round_repr 1 (-3) (by norm_num) (by norm_num) (by norm_num)
    norm_num at this ⊢
    exact this
  have h15 : F64.round (1 / 2 * (5404319552844595 / 2 ^ 55)) =
      5404319552844595 / 2 ^ 56 := by
    have := F64.round_repr 5404319552844595 (-56) (by norm_num) (by norm_num) (by norm_num)
    norm_num at this ⊢
    exact this
  have hd : F64.mulAdd fma (1 / 2) (F64.round (20 / 100 - 5 / 100)) (F64.round (5 / 100)) =
      1 / 8 := by
    rw [F64.lit_005, F64.lit_015]
    cases fma
    · simp only [F64.mulAdd, F64.add, F64.mul, Bool.false_eq_true, if_false]
      rw [h15]
      have : (3602879701896397 / 2 ^ 56 + 5404319552844595 / 2 ^ 56 : ℚ) = 1 / 8 := by
        norm_num
      rw [this, h8]
    · simp only [F64.mulAdd, if_true]
      have : (3602879701896397 / 2 ^ 56 + 1 / 2 * (5404319552844595 / 2 ^ 55) : ℚ) = 1 / 8 := by
        norm_num
      rw [this, h8]
  rw [hd]
  unfold F64.sub
  have := F64.round_repr 7 (-3) (by norm_num) (by norm_num) (by norm_num)
  norm_num at this ⊢
  exact this

/-- Evaluation of the payment value from the values of its steps, when the
product stays below the debt value. -/
theorem paymentValue_eval (fma : Bool) (debtID : GoString) (u DV m PV : ℚ)
    (hDV : (verifyCreditLimit fma debtID u).1.DebtValue = DV)
    (hm : F64.sub 1 (F64.mulAdd fma u (F64.round (20 / 100 - 5 / 100))
      (F64.round (5 / 100))) = m)
    (hPV : F64.mul DV m = PV) (hlt : PV < DV) :
    (verifyCreditLimit fma debtID u).1.PaymentValue = PV := by
  rw [debtValue_eq] at hDV
  simp only [verifyCreditLimit, hDV, hm, hPV]
  rw [if_neg (not_le.2 hlt)]

/-- Counterexample to claim C8 as stated: for the one-byte identifier `a` and
the draw `0` the payment value is `190`, outside the interval `[160, 190)`. -/
theorem single_byte_paymentValue_reaches_190 :
    len [97] = 1 ∧ IsDraw 0 ∧ (verifyCreditLimit false [97] 0).1.PaymentValue = 190 ∧
      ¬ (160 ≤ (verifyCreditLimit false [97] 0).1.PaymentValue ∧
        (verifyCreditLimit false [97] 0).1.PaymentValue < 190) := by
  have hpv : (verifyCreditLimit false [97] 0).1.PaymentValue = 190 := by
    refine paymentValue_eval false [97] 0 200 (4278419646001971 / 2 ^ 52) 190 ?_
      (factor_at_zero false) ?_ (by norm_num)
    · have := debtValue_exact false [97] 0 (by decide)
      rw [this]
      norm_num [len]
    · unfold F64.mul
      rw [F64.round_eval 7 6685030696878080 (by norm_num) (by norm_num) (by norm_num)
        (F64.rne_eq_of_near (by norm_num) (by norm_num))]
      norm_num
  refine ⟨by decide, isDraw_zero, hpv, ?_⟩
  rw [hpv]
  norm_num

/-- Claim C8, amended: for an identifier of length 1 and a draw in `[0, 1)`
the debt value is `200`, the payment value lies in the closed interval
`[160, 190]` and there is one installment. -/
theorem single_byte_result (fma : Bool) (debtID : GoString) (u : ℚ)
    (hlen : len debtID = 1) (hu0 : 0 ≤ u) (hu1 : u < 1) :
    (verifyCreditLimit fma debtID u).1.DebtValue = 200 ∧
      160 ≤ (verifyCreditLimit fma debtID u).1.PaymentValue ∧
      (verifyCreditLimit fma debtID u).1.PaymentValue ≤ 190 ∧
      (verifyCreditLimit fma debtID u).1.Installments = 1 := by
  have hdv := debtValue_exact fma debtID u (by omega)
  obtain ⟨hlo, hhi⟩ := paymentValue_exact_band fma debtID u hu0 hu1.le (by omega)
  rw [hlen] at hdv hlo hhi
  norm_num at hdv hlo hhi
  have h1 := le_toInt_div (x := (verifyCreditLimit fma debtID u).1.PaymentValue) 0
    (by norm_num) (by norm_num) (by norm_num; linarith)
  have h2 := toInt_div_le (x := (verifyCreditLimit fma debtID u).1.PaymentValue) 0
    (by norm_num) (by norm_num) (by linarith) (by norm_num; linarith)
  refine ⟨hdv, hlo, hhi, ?_⟩
  rw [installments_eq]
  omega

/-- Witness of claim C8, amended: the identifier `a` and the draw `1/4`. -/
theorem single_byte_result_witness :
    len [97] = 1 ∧ (0 : ℚ) ≤ 1 / 4 ∧ (1 / 4 : ℚ) < 1 ∧
      (verifyCreditLimit false [97] (1 / 4)).1.DebtValue = 200 ∧
      160 ≤ (verifyCreditLimit false [97] (1 / 4)).1.PaymentValue ∧
      (verifyCreditLimit false [97] (1 / 4)).1.PaymentValue ≤ 190 ∧
      (verifyCreditLimit false [97] (1 / 4)).1.Installments = 1 :=
  ⟨by decide, by norm_num, by norm_num,
    single_byte_result false [97] (1 / 4) (by decide) (by norm_num) (by norm_num)⟩

/-- Claim C9: for an identifier of length 100 and a draw in `[0, 1)` the
debt value is `20000` and the installments are clamped to 12, while the
quotient `PaymentValue / 1000` exceeds 12, as a `float64` and truncated. -/
theorem hundred_bytes_result (fma : Bool) (debtID : GoString) (u : ℚ)
    (hlen : len debtID = 100) (hu0 : 0 ≤ u) (hu1 : u < 1) :
    (verifyCreditLimit fma debtID u).1.DebtValue = 20000 ∧
      (verifyCreditLimit fma debtID u).1.Installments = 12 ∧
      12 < F64.div (verifyCreditLimit fma debtID u).1.PaymentValue 1000 ∧
      12 < F64.toInt (F64.div (verifyCreditLimit fma debtID u).1.PaymentValue 1000) := by
  have hdv := debtValue_exact fma debtID u (by omega)
  obtain ⟨hlo, hhi⟩ := paymentValue_exact_band fma debtID u hu0 hu1.le (by omega)
  rw [hlen] at hdv hlo hhi
  norm_num at hdv hlo hhi
  have h1 := le_toInt_div (x := (verifyCreditLimit fma debtID u).1.PaymentValue) 16
    (by norm_num) (by norm_num) (by norm_num; linarith)
  have hq : (16 : ℚ) ≤ F64.div (verifyCreditLimit fma debtID u).1.PaymentValue 1000 := by
    unfold F64.div
    have := F64.round_mono (a := 16)
      (b := (verifyCreditLimit fma debtID u).1.PaymentValue / 1000) (by norm_num)
      (by rw [le_div_iff₀ (by norm_num)]; linarith)
    have h16 := F64.round_intCast 16 (by norm_num) (by norm_num)
    norm_num at h16
    rwa [h16] at this
  refine ⟨hdv, ?_, by linarith, by omega⟩
  rw [installments_eq]
  omega

/-- Witness of claim C9: a hundred bytes `a` and the draw `1/4`. -/
theorem hundred_bytes_result_witness :
    len (List.replicate 100 97) = 100 ∧ (0 : ℚ) ≤ 1 / 4 ∧ (1 / 4 : ℚ) < 1 ∧
      (verifyCreditLimit false (List.replicate 100 97) (1 / 4)).1.DebtValue = 20000 ∧
      (verifyCreditLimit false (List.replicate 100 97) (1 / 4)).1.Installments = 12 ∧
      12 < F64.div (verifyCreditLimit false (List.replicate 100 97) (1 / 4)).1.PaymentValue
        1000 ∧
      12 < F64.toInt
        (F64.div (verifyCreditLimit false (List.replicate 100 97) (1 / 4)).1.PaymentValue
          1000) :=
  ⟨by simp [len], by norm_num, by norm_num,
    hundred_bytes_result false (List.replicate 100 97) (1 / 4) (by simp [len]) (by norm_num)
      (by norm_num)⟩

/-- Claim C10: for an identifier of length 50 the debt value is `10000` and
the installments are 8 or 9 for every draw in `[0, 1)`; the draw `1/2` gives
8 and the draw `0` gives 9. -/
theorem fifty_bytes_result (fma : Bool) (debtID : GoString) (hlen : len debtID = 50) :
    (∀ u : ℚ, 0 ≤ u → u < 1 →
      (verifyCreditLimit fma debtID u).1.DebtValue = 10000 ∧
        ((verifyCreditLimit fma debtID u).1.Installments = 8 ∨
          (verifyCreditLimit fma debtID u).1.Installments = 9)) ∧
      (∃ u : ℚ, IsDraw u ∧ (verifyCreditLimit fma debtID u).1.Installments = 8) ∧
      (∃ u : ℚ, IsDraw u ∧ (verifyCreditLimit fma debtID u).1.Installments = 9) := by
  have hdv : ∀ u : ℚ, (verifyCreditLimit fma debtID u).1.DebtValue = 10000 := by
    intro u
    have := debtValue_exact fma debtID u (by omega)
    rw [hlen] at this
    norm_num at this
    exact this
  refine ⟨fun u hu0 hu1 => ⟨hdv u, ?_⟩, ⟨1 / 2, isDraw_half, ?_⟩, ⟨0, isDraw_zero, ?_⟩⟩
  · obtain ⟨hlo, hhi⟩ := paymentValue_exact_band fma debtID u hu0 hu1.le (by omega)
    rw [hlen] at hlo hhi
    norm_num at hlo hhi
    have h1 := le_toInt_div (x := (verifyCreditLimit fma debtID u).1.PaymentValue) 8
      (by norm_num) (by norm_num) (by norm_num; linarith)
    have h2 := toInt_div_le (x := (verifyCreditLimit fma debtID u).1.PaymentValue) 9
      (by norm_num) (by norm_num) (by linarith) (by norm_num; linarith)
    rw [installments_eq]
    omega
  · have hpv : (verifyCreditLimit fma debtID (1 / 2)).1.PaymentValue = 8750 := by
      refine paymentValue_eval fma debtID (1 / 2) 10000 (7 / 8) 8750 (hdv _)
        (factor_at_half fma) ?_ (by norm_num)
      unfold F64.mul
      have := F64.round_intCast 8750 (by norm_num) (by norm_num)
      norm_num at this ⊢
      exact this
    have hq : F64.div 8750 1000 = 35 / 4 := by
      unfold F64.div
      have := F64.round_repr 35 (-2) (by norm_num) (by norm_num) (by norm_num)
      norm_num at this ⊢
      exact this
    have ht : F64.toInt (35 / 4) = 8 := by
      unfold F64.toInt
      rw [if_pos (by norm_num), Int.floor_eq_iff]
      constructor <;> norm_num
    rw [installments_eq, hpv, hq, ht]
    rfl
  · have hpv : (verifyCreditLimit fma debtID 0).1.PaymentValue = 9500 := by
      refine paymentValue_eval fma debtID 0 10000 (4278419646001971 / 2 ^ 52) 9500 (hdv _)
        (factor_at_zero fma) ?_ (by norm_num)
      unfold F64.mul
      rw [F64.round_eval 13 5222680231936000 (by norm_num) (by norm_num) (by norm_num)
        (F64.rne_eq_of_near (by norm_num) (by norm_num))]
      norm_num
    have h1 := le_toInt_div (x := (9500 : ℚ)) 9 (by norm_num) (by norm_num) (by norm_num)
    have h2 := toInt_div_le (x := (9500 : ℚ)) 9 (by norm_num) (by norm_num) (by norm_num)
      (by norm_num)
    rw [installments_eq, hpv]
    omega

/-- Witness of claim C10: fifty bytes `a`. -/
theorem fifty_bytes_result_witness :
    len (List.replicate 50 97) = 50 ∧
      (∀ u : ℚ, 0 ≤ u → u < 1 →
        (verifyCreditLimit false (List.replicate 50 97) u).1.DebtValue = 10000 ∧
          ((verifyCreditLimit false (List.replicate 50 97) u).1.Installments = 8 ∨
            (verifyCreditLimit false (List.replicate 50 97) u).1.Installments = 9)) ∧
      (∃ u : ℚ, IsDraw u ∧
        (verifyCreditLimit false (List.replicate 50 97) u).1.Installments = 8) ∧
      (∃ u : ℚ, IsDraw u ∧
        (verifyCreditLimit false (List.replicate 50 97) u).1.Installments = 9) :=
  ⟨by simp [len], fifty_bytes_result false (List.replicate 50 97) (by simp [len])⟩

/-! ## The range of the values, and a scenario of the specification -/

/-- No value of the evaluation leaves the range of its type: for a string
length below `2 ^ 63` the debt value and the payment value are at most
`200 * 2 ^ 63`, far from the binary64 overflow threshold `2 ^ 1024`, and the
truncated quotient is a non-negative `int` below `2 ^ 63`. -/
theorem verifyCreditLimit_in_range (fma : Bool) (debtID : GoString) (u : ℚ)
    (hu0 : 0 ≤ u) (hu1 : u ≤ 1) (hlen : len debtID < 2 ^ 63) :
    (verifyCreditLimit fma debtID u).1.DebtValue ≤ 200 * 2 ^ 63 ∧
      (verifyCreditLimit fma debtID u).1.PaymentValue ≤ 200 * 2 ^ 63 ∧
      0 ≤ F64.toInt (F64.div (verifyCreditLimit fma debtID u).1.PaymentValue 1000) ∧
      F64.toInt (F64.div (verifyCreditLimit fma debtID u).1.PaymentValue 1000) < 2 ^ 63 := by
  have hmax : F64.round (200 * 2 ^ 63) = 200 * 2 ^ 63 := by
    have := F64.round_repr 25 66 (by norm_num) (by norm_num) (by norm_num)
    norm_num at this ⊢
    exact this
  have h62 : F64.round (2 ^ 62) = 2 ^ 62 := by
    have := F64.round_repr 1 62 (by norm_num) (by norm_num) (by norm_num)
    norm_num at this ⊢
    exact this
  have h63 : F64.round (2 ^ 63) = 2 ^ 63 := by
    have := F64.round_repr 1 63 (by norm_num) (by norm_num) (by norm_num)
    norm_num at this ⊢
    exact this
  have h0 : 0 ≤ len debtID := by unfold len; positivity
  have hl0 : (0 : ℚ) ≤ (len debtID : ℚ) := by exact_mod_cast h0
  have hl1 : (len debtID : ℚ) ≤ 2 ^ 63 := by exact_mod_cast hlen.le
  have hconv : F64.round (len debtID : ℚ) ≤ 2 ^ 63 := by
    have := F64.round_mono hl0 hl1
    rwa [h63] at this
  have hconv0 : 0 ≤ F64.round (len debtID : ℚ) := F64.round_nonneg hl0
  have hdv : (verifyCreditLimit fma debtID u).1.DebtValue ≤ 200 * 2 ^ 63 := by
    rw [debtValue_eq]
    unfold F64.mul F64.ofInt
    have := F64.round_mono (a := F64.round (len debtID : ℚ) * 200) (b := 200 * 2 ^ 63)
      (by positivity) (by nlinarith)
    rwa [hmax] at this
  have hdv0 := debtValue_nonneg fma debtID u
  obtain ⟨m, hm1, hm2, hpv⟩ := paymentValue_eq fma debtID u hu0 hu1
  rw [F64.lit_080] at hm1
  rw [F64.lit_095] at hm2
  have hm0 : (0 : ℚ) ≤ m := le_trans (by norm_num) hm1
  have hmle : m ≤ 1 := le_trans hm2 (by norm_num)
  have hpvle : (verifyCreditLimit fma debtID u).1.PaymentValue ≤ 200 * 2 ^ 63 := by
    rw [hpv]
    unfold F64.mul
    have := F64.round_mono (a := (verifyCreditLimit fma debtID u).1.DebtValue * m)
      (b := 200 * 2 ^ 63) (mul_nonneg hdv0 hm0) (by nlinarith)
    rwa [hmax] at this
  have hpv0 : 0 ≤ (verifyCreditLimit fma debtID u).1.PaymentValue := by
    rw [hpv]
    exact F64.round_nonneg (mul_nonneg hdv0 hm0)
  have hq0 : (0 : ℚ) ≤ F64.div (verifyCreditLimit fma debtID u).1.PaymentValue 1000 :=
    F64.round_nonneg (by positivity)
  have hq : F64.div (verifyCreditLimit fma debtID u).1.PaymentValue 1000 ≤ 2 ^ 62 := by
    unfold F64.div
    have := F64.round_mono (a := (verifyCreditLimit fma debtID u).1.PaymentValue / 1000)
      (b := 2 ^ 62) (by positivity)
      (by rw [div_le_iff₀ (by norm_num)]; linarith)
    rwa [h62] at this
  refine ⟨hdv, hpvle, ?_, ?_⟩
  · unfold F64.toInt
    rw [if_pos hq0]
    exact Int.floor_nonneg.2 hq0
  · unfold F64.toInt
    rw [if_pos hq0, Int.floor_lt]
    push_cast
    linarith

/-- The third scenario of the specification, at the draw `1/2`: the
identifier `abc` is answered with the debt value "600.00", the payment value
"525.00" and one installment. -/
theorem checkCredit_abc (fma : Bool) :
    checkCredit fma (lit "abc") (1 / 2) none =
      [Call.verifyCreditLimit (lit "abc"),
        Call.JSON 200
          [("DebtID", Value.str (lit "abc")),
           ("PaymentValue", Value.str (lit "525.00")),
           ("Installments", Value.int 1),
           ("DebtValue", Value.str (lit "600.00"))]] := by
  have hne : lit "abc" ≠ [] := by decide
  have hlen : len (lit "abc") = 3 := by decide
  have hdv : (verifyCreditLimit fma (lit "abc") (1 / 2)).1.DebtValue = 600 := by
    have := debtValue_exact fma (lit "abc") (1 / 2) (by rw [hlen]; norm_num)
    rw [hlen] at this
    norm_num at this
    exact this
  have hpv : (verifyCreditLimit fma (lit "abc") (1 / 2)).1.PaymentValue = 525 := by
    refine paymentValue_eval fma (lit "abc") (1 / 2) 600 (7 / 8) 525 hdv
      (factor_at_half fma) ?_ (by norm_num)
    unfold F64.mul
    have := F64.round_intCast 525 (by norm_num) (by norm_num)
    norm_num at this ⊢
    exact this
  have hin : (verifyCreditLimit fma (lit "abc") (1 / 2)).1.Installments = 1 := by
    have h1 := le_toInt_div (x := (525 : ℚ)) 0 (by norm_num) (by norm_num) (by norm_num)
    have h34 : F64.round (3 / 4) = 3 / 4 := by
      have := F64.round_repr 3 (-2) (by norm_num) (by norm_num) (by norm_num)
      norm_num at this ⊢
      exact this
    have h2 := toInt_div_le_of_repr (x := (525 : ℚ)) 0 (3 / 4) h34 (by norm_num)
      (by norm_num) (by norm_num)
    rw [installments_eq, hpv]
    omega
  have hfmt : ∀ n : ℕ, Sprintf2f (n : ℚ) =
      lit (Nat.repr (n * 100 / 100)) ++ lit "." ++ lit (Nat.repr (n * 100 % 100 / 10))
        ++ lit (Nat.repr (n * 100 % 10)) := by
    intro n
    unfold Sprintf2f
    have h : |(n : ℚ)| * 100 = (((n * 100 : ℕ) : ℤ) : ℚ) := by
      rw [abs_of_nonneg (by positivity)]
      push_cast
      ring
    have hn : ¬ ((n : ℚ) < 0) := not_lt.2 (by positivity)
    simp only [h, F64.rne_intCast, Int.toNat_ofNat, if_neg hn, List.nil_append]
  have h525 : Sprintf2f 525 = lit "525.00" := by
    have := hfmt 525
    norm_num at this
    rw [this]
    decide
  have h600 : Sprintf2f 600 = lit "600.00" := by
    have := hfmt 600
    norm_num at this
    rw [this]
    decide
  rw [checkCredit_cons fma (lit "abc") (1 / 2) none hne, hdv, hpv, hin, h525, h600]
  rfl

/-! ## The clamp of the payment value -/

/-- The payment value is the first `newValueToPay`, or `debtValue * 0.95` when
the clamp condition `newValueToPay >= debtValue` holds. -/
theorem paymentValue_unfold (fma : Bool) (debtID : GoString) (u : ℚ) :
    (verifyCreditLimit fma debtID u).1.PaymentValue =
      if newValueToPay fma debtID u ≥ (verifyCreditLimit fma debtID u).1.DebtValue then
        F64.mul (verifyCreditLimit fma debtID u).1.DebtValue (F64.round (95 / 100))
      else newValueToPay fma debtID u :=
  rfl

/-- For a non-empty identifier the first `newValueToPay` is below the debt
value: the factor is at most the `float64` constant `0.95` and the rounding
of the product cannot make up for it. -/
theorem newValueToPay_lt (fma : Bool) (debtID : GoString) (u : ℚ) (hne : debtID ≠ [])
    (hu0 : 0 ≤ u) (hu1 : u ≤ 1) :
    newValueToPay fma debtID u < (verifyCreditLimit fma debtID u).1.DebtValue := by
  obtain ⟨hlo, hhi⟩ := factor_bounds fma u hu0 hu1
  have hdv := debtValue_ge fma debtID u hne
  rw [F64.lit_080] at hlo
  rw [F64.lit_095] at hhi
  rw [debtValue_eq] at hdv ⊢
  unfold newValueToPay discountRate
  set DV := F64.mul (F64.ofInt (len debtID)) 200 with hDV
  set m := F64.sub 1 (F64.mulAdd fma u (F64.round (20 / 100 - 5 / 100))
    (F64.round (5 / 100))) with hm
  unfold F64.mul
  have hm0 : (0 : ℚ) ≤ m := le_trans (by norm_num) hlo
  have hprod : (2 : ℚ) ^ (-1022 : ℤ) ≤ DV * m := by
    have h1 : (200 : ℚ) * m ≤ DV * m := mul_le_mul_of_nonneg_right hdv hm0
    have h2 : (2 : ℚ) ^ (-1022 : ℤ) ≤ 1 := zpow_le_one_of_nonpos₀ (by norm_num) (by norm_num)
    nlinarith
  have herr := (F64.round_rel_error hprod).2
  have hfac : m * (1 + 2 ^ (-53 : ℤ)) < 1 := by
    have : (4278419646001971 / 2 ^ 52 : ℚ) * (1 + 2 ^ (-53 : ℤ)) < 1 := by norm_num
    have h53 : (0 : ℚ) ≤ 1 + 2 ^ (-53 : ℤ) := by positivity
    exact lt_of_le_of_lt (mul_le_mul_of_nonneg_right hhi h53) this
  have hdvpos : (0 : ℚ) < DV := by linarith
  calc F64.round (DV * m) ≤ DV * m * (1 + 2 ^ (-53 : ℤ)) := herr
    _ = DV * (m * (1 + 2 ^ (-53 : ℤ))) := by ring
    _ < DV * 1 := mul_lt_mul_of_pos_left hfac hdvpos
    _ = DV := by ring

/-- For a non-empty identifier the payment value is the first `newValueToPay`:
the clamp does not change it. -/
theorem paymentValue_unclamped (fma : Bool) (debtID : GoString) (u : ℚ) (hne : debtID ≠ [])
    (hu0 : 0 ≤ u) (hu1 : u ≤ 1) :
    (verifyCreditLimit fma debtID u).1.PaymentValue = newValueToPay fma debtID u := by
  rw [paymentValue_unfold, if_neg (not_le.2 (newValueToPay_lt fma debtID u hne hu0 hu1))]

/-- The result of the evaluation on the empty identifier. -/
theorem verifyCreditLimit_nil (fma : Bool) (u : ℚ) :
    verifyCreditLimit fma [] u =
      ({ PaymentValue := 0, Installments := 1, DebtValue := 0 }, none) := by
  have hq : F64.toInt (F64.div 0 1000) = 0 := by
    simp [F64.toInt, F64.div, F64.round_zero]
  simp only [verifyCreditLimit, len, F64.ofInt, F64.mul, List.length_nil, Nat.cast_zero,
    Int.cast_zero, zero_mul, F64.round_zero, ge_iff_le, le_refl, if_true, hq]
  rfl

/-- Claim C11: two runs on the same identifier return the same debt value
whatever the two draws, and for a non-empty identifier two draws, `0` and
`1/2`, return different payment values. -/
theorem debtValue_same_paymentValue_varies (fma : Bool) (debtID : GoString) :
    (∀ u₁ u₂ : ℚ, (verifyCreditLimit fma debtID u₁).1.DebtValue =
        (verifyCreditLimit fma debtID u₂).1.DebtValue) ∧
      (debtID ≠ [] → ∃ u₁ u₂ : ℚ, IsDraw u₁ ∧ IsDraw u₂ ∧
        (verifyCreditLimit fma debtID u₁).1.PaymentValue ≠
          (verifyCreditLimit fma debtID u₂).1.PaymentValue) := by
  refine ⟨fun u₁ u₂ => by rw [debtValue_eq, debtValue_eq],
    fun hne => ⟨0, 1 / 2, isDraw_zero, isDraw_half, ?_⟩⟩
  rw [paymentValue_unclamped fma debtID 0 hne (by norm_num) (by norm_num),
    paymentValue_unclamped fma debtID (1 / 2) hne (by norm_num) (by norm_num)]
  have hdv := debtValue_ge fma debtID 0 hne
  rw [debtValue_eq] at hdv
  unfold newValueToPay discountRate
  rw [factor_at_zero, factor_at_half]
  set DV := F64.mul (F64.ofInt (len debtID)) 200 with hDV
  unfold F64.mul
  have h2 : (2 : ℚ) ^ (-1022 : ℤ) ≤ 1 := zpow_le_one_of_nonpos₀ (by norm_num) (by norm_num)
  have hlo := (F64.round_rel_error (q := DV * (4278419646001971 / 2 ^ 52))
    (by nlinarith)).1
  have hhi := (F64.round_rel_error (q := DV * (7 / 8)) (by nlinarith)).2
  have hgap : (7 / 8 : ℚ) * (1 + 2 ^ (-53 : ℤ)) <
      4278419646001971 / 2 ^ 52 * (1 - 2 ^ (-53 : ℤ)) := by norm_num
  have hdvpos : (0 : ℚ) < DV := by linarith
  have : DV * (7 / 8) * (1 + 2 ^ (-53 : ℤ)) <
      DV * (4278419646001971 / 2 ^ 52) * (1 - 2 ^ (-53 : ℤ)) := by
    have := mul_lt_mul_of_pos_left hgap hdvpos
    linarith
  intro heq
  rw [heq] at hlo
  linarith

/-- Witness of claim C11: the identifier `abc`. -/
theorem debtValue_same_paymentValue_varies_witness :
    ([97, 98, 99] : GoString) ≠ [] ∧ ∃ u₁ u₂ : ℚ, IsDraw u₁ ∧ IsDraw u₂ ∧
      (verifyCreditLimit false [97, 98, 99] u₁).1.PaymentValue ≠
        (verifyCreditLimit false [97, 98, 99] u₂).1.PaymentValue :=
  ⟨by simp, (debtValue_same_paymentValue_varies false [97, 98, 99]).2 (by simp)⟩

/-- Claim C12: the result depends on the identifier only through its
length: two identifiers of equal length give, for the same draw, the same
payment value, installments and debt value (and the same nil error). -/
theorem verifyCreditLimit_depends_on_len (fma : Bool) (a b : GoString) (u : ℚ)
    (hlen : len a = len b) :
    (verifyCreditLimit fma a u).1.PaymentValue = (verifyCreditLimit fma b u).1.PaymentValue ∧
      (verifyCreditLimit fma a u).1.Installments = (verifyCreditLimit fma b u).1.Installments ∧
      (verifyCreditLimit fma a u).1.DebtValue = (verifyCreditLimit fma b u).1.DebtValue ∧
      verifyCreditLimit fma a u = verifyCreditLimit fma b u := by
  have h : verifyCreditLimit fma a u = verifyCreditLimit fma b u := by
    simp only [verifyCreditLimit, hlen]
  rw [h]
  exact ⟨rfl, rfl, rfl, rfl⟩

/-- Witness of claim C12: the identifiers `abc` and `xyz`. -/
theorem verifyCreditLimit_depends_on_len_witness :
    len [97, 98, 99] = len [120, 121, 122] ∧
      (verifyCreditLimit false [97, 98, 99] (1 / 2)).1.PaymentValue =
        (verifyCreditLimit false [120, 121, 122] (1 / 2)).1.PaymentValue ∧
      (verifyCreditLimit false [97, 98, 99] (1 / 2)).1.Installments =
        (verifyCreditLimit false [120, 121, 122] (1 / 2)).1.Installments ∧
      (verifyCreditLimit false [97, 98, 99] (1 / 2)).1.DebtValue =
        (verifyCreditLimit false [120, 121, 122] (1 / 2)).1.DebtValue ∧
      verifyCreditLimit false [97, 98, 99] (1 / 2) =
        verifyCreditLimit false [120, 121, 122] (1 / 2) :=
  ⟨by decide,
    verifyCreditLimit_depends_on_len false [97, 98, 99] [120, 121, 122] (1 / 2) (by decide)⟩

/-- Claim C13: the handler `status` has no input but the value the writer
returns; its first call is always `response.JSON` with status 200 and the
one-entry mapping `Status: OK`, it makes no other `response.JSON` call and no
`badRequest` call, and it calls `serverError` exactly when the writer returns
an error, with that error. -/
theorem status_response (jsonErr : Option GoError) :
    (status jsonErr).head? = some (Call.JSON 200 [("Status", Value.str (lit "OK"))]) ∧
      (∀ code data, Call.JSON code data ∈ status jsonErr ↔
        code = 200 ∧ data = [("Status", Value.str (lit "OK"))]) ∧
      (∀ e, Call.serverError e ∈ status jsonErr ↔ jsonErr = some e) ∧
      (∀ e, Call.badRequest e ∉ status jsonErr) := by
  cases jsonErr with
  | none => refine ⟨rfl, ?_, ?_, ?_⟩ <;> simp [status, StatusOK]
  | some err => refine ⟨rfl, ?_, ?_, ?_⟩ <;> simp [status, StatusOK, eq_comm]

/-- Witness of claim C13: a failing writer. -/
theorem status_response_witness :
    (some ⟨"write failed"⟩ : Option GoError) = some ⟨"write failed"⟩ ∧
      Call.serverError ⟨"write failed"⟩ ∈ status (some ⟨"write failed"⟩) :=
  ⟨rfl, ((status_response (some ⟨"write failed"⟩)).2.2.1 ⟨"write failed"⟩).2 rfl⟩

/-! ## The neighbours of a binary64 value, and the discount rate -/

namespace F64

/-- A positive value below `2 ^ (e + 53)` has its unit in the last place at
most at `e`. -/
theorem ulpExp_le_of_lt {x : ℚ} (hx : 0 < x) (e : ℤ) (he : -1074 ≤ e)
    (h : x < 2 ^ (e + 53)) : ulpExp x ≤ e := by
  by_contra hgt
  push_neg at hgt
  have hnormal : (2 : ℚ) ^ (-1022 : ℤ) ≤ x := by
    by_contra hsub
    push_neg at hsub
    have h2 : Int.log 2 x < -1022 := by
      rw [← Int.lt_zpow_iff_log_lt (by norm_num) hx]
      simpa using hsub
    have : ulpExp x = -1074 := by
      unfold ulpExp
      rw [abs_of_pos hx, max_eq_right (by omega)]
      norm_num
    omega
  have h1 := ulp_bot_le hnormal
  have h3 : (2 : ℚ) ^ (ulpExp x + 52) < 2 ^ (e + 53) := lt_of_le_of_lt h1 h
  have h4 := (zpow_lt_zpow_iff_right₀ (show (1 : ℚ) < 2 by norm_num)).1 h3
  omega

/-- A `float64` is a multiple of its unit in the last place by an integer
below `2 ^ 53`. -/
theorem exists_mantissa {x : ℚ} (hx : round x = x) (hx0 : 0 < x) :
    ∃ k : ℤ, k < 2 ^ 53 ∧ x = k * 2 ^ ulpExp x := by
  refine ⟨rne (x / 2 ^ ulpExp x), ?_, ?_⟩
  · have htop := lt_ulp_top hx0
    have hk : (rne (x / 2 ^ ulpExp x) : ℚ) * 2 ^ ulpExp x < 2 ^ 53 * 2 ^ ulpExp x := by
      have : (rne (x / 2 ^ ulpExp x) : ℚ) * 2 ^ ulpExp x = x := hx
      rw [this]
      calc x < 2 ^ (ulpExp x + 53) := htop
        _ = 2 ^ 53 * 2 ^ ulpExp x := by
          rw [show ulpExp x + 53 = ulpExp x + ((53 : ℕ) : ℤ) by norm_num, two_zpow_add_nat]
          ring
    have := lt_of_mul_lt_mul_right hk (two_zpow_pos _).le
    exact_mod_cast this
  · exact hx.symm

/-- The largest `float64` below a `float64` value `M * 2 ^ e` whose mantissa
`M` lies in `(2 ^ 52, 2 ^ 53]` is `(M - 1) * 2 ^ e`. -/
theorem le_pred {x : ℚ} (hx : round x = x) (hx0 : 0 ≤ x) (M e : ℤ) (hM : 2 ^ 52 < M)
    (hM' : M ≤ 2 ^ 53) (he : -1074 ≤ e) (hlt : x < M * 2 ^ e) : x ≤ (M - 1) * 2 ^ e := by
  have hpe := two_zpow_pos e
  have hM1 : ((2 : ℚ) ^ 52) ≤ (M : ℚ) - 1 := by
    have : (2 : ℤ) ^ 52 ≤ M - 1 := by omega
    exact_mod_cast this
  rcases hx0.eq_or_lt with h0 | hpos
  · rw [← h0]
    have : (0 : ℚ) ≤ (M : ℚ) - 1 := le_trans (by positivity) hM1
    exact mul_nonneg this hpe.le
  have hMq : (M : ℚ) ≤ 2 ^ 53 := by exact_mod_cast hM'
  have htop : x < 2 ^ (e + 53) := by
    calc x < M * 2 ^ e := hlt
      _ ≤ 2 ^ 53 * 2 ^ e := mul_le_mul_of_nonneg_right hMq hpe.le
      _ = 2 ^ (e + 53) := by
        rw [show e + 53 = e + ((53 : ℕ) : ℤ) by norm_num, two_zpow_add_nat]
        ring
  rcases (ulpExp_le_of_lt hpos e he htop).eq_or_lt with heq | hlt'
  · obtain ⟨k, _, hk⟩ := exists_mantissa hx hpos
    rw [heq] at hk
    rw [hk] at hlt ⊢
    have hkM : (k : ℚ) < M := lt_of_mul_lt_mul_right hlt hpe.le
    have hkM' : k ≤ M - 1 := by
      have : k < M := by exact_mod_cast hkM
      omega
    have : (k : ℚ) ≤ (M : ℚ) - 1 := by exact_mod_cast hkM'
    exact mul_le_mul_of_nonneg_right this hpe.le
  · have h1 := lt_ulp_top hpos
    have h2 : (2 : ℚ) ^ (ulpExp x + 53) ≤ 2 ^ (e + 52) := two_zpow_le (by omega)
    have h3 : (2 : ℚ) ^ (e + 52) = 2 ^ 52 * 2 ^ e := by
      rw [show e + 52 = e + ((52 : ℕ) : ℤ) by norm_num, two_zpow_add_nat]
      ring
    calc x ≤ 2 ^ (e + 52) := (h1.trans_le h2).le
      _ = 2 ^ 52 * 2 ^ e := h3
      _ ≤ ((M : ℚ) - 1) * 2 ^ e := mul_le_mul_of_nonneg_right hM1 hpe.le

/-- The constant `0.20` as a `float64`. -/
theorem lit_020 : round (20 / 100) = 3602879701896397 / 2 ^ 54 := by
  rw [round_eval (-3) 7205759403792794 (by norm_num) (by norm_num) (by norm_num)
    (rne_eq_of_near (by norm_num) (by norm_num))]
  norm_num

/-- The `float64` product of the largest `float64` below 1 and the constant
`0.15`: one unit below the constant. -/
theorem round_pred_one_mul_015 :
    round ((1 - 1 / 2 ^ 53) * (5404319552844595 / 2 ^ 55)) = 5404319552844594 / 2 ^ 55 := by
  rw [round_eval (-3) 5404319552844594 (by norm_num) (by norm_num) (by norm_num)
    (rne_eq_of_near (by norm_num) (by norm_num))]
  norm_num

/-- The `float64` sum of the constant `0.05` and the value one unit below the
constant `0.15`: a tie, which goes two units below the constant `0.20`. -/
theorem round_005_add_pred_015 :
    round (3602879701896397 / 2 ^ 56 + 5404319552844594 / 2 ^ 55) =
      7205759403792792 / 2 ^ 55 := by
  rw [round_eval (-3) 7205759403792792 (by norm_num) (by norm_num) (by norm_num)
    (by
      have := rne_tie_even (x := (3602879701896397 / 2 ^ 56 + 5404319552844594 / 2 ^ 55)
        / 2 ^ ((-3 : ℤ) - 52)) (n := 7205759403792792) (by norm_num) (by norm_num)
      simpa using this)]
  norm_num

/-- The fused multiply-add at the largest `float64` below 1: one unit below
the constant `0.20`. -/
theorem round_005_add_pred_one_mul_015 :
    round (3602879701896397 / 2 ^ 56 + (1 - 1 / 2 ^ 53) * (5404319552844595 / 2 ^ 55)) =
      7205759403792793 / 2 ^ 55 := by
  rw [round_eval (-3) 7205759403792793 (by norm_num) (by norm_num) (by norm_num)
    (rne_eq_of_near (by norm_num) (by norm_num))]
  norm_num

end F64

/-- A draw is at most the largest `float64` below 1. -/
theorem draw_le_pred_one {u : ℚ} (hu : IsDraw u) : u ≤ 1 - 1 / 2 ^ 53 := by
  obtain ⟨hr, h0, h1⟩ := hu
  have := F64.le_pred hr h0 (2 ^ 53) (-53) (by norm_num) (by norm_num) (by norm_num)
    (by norm_num; exact h1)
  norm_num at this ⊢
  exact this

/-- For a draw the discount rate is at most two units in the last place
below the `float64` constant `0.20` when the product and the sum are rounded
separately, and one unit below it when they are fused. -/
theorem discountRate_le (fma : Bool) (u : ℚ) (hu : IsDraw u) :
    discountRate fma u ≤ 7205759403792793 / 2 ^ 55 := by
  have hpred := draw_le_pred_one hu
  obtain ⟨_, h0, _⟩ := hu
  unfold discountRate
  rw [F64.lit_015, F64.lit_005]
  have hprod0 : (0 : ℚ) ≤ u * (5404319552844595 / 2 ^ 55) := by positivity
  have hprod1 : u * (5404319552844595 / 2 ^ 55) ≤
      (1 - 1 / 2 ^ 53) * (5404319552844595 / 2 ^ 55) :=
    mul_le_mul_of_nonneg_right hpred (by positivity)
  cases fma
  · simp only [F64.mulAdd, F64.add, F64.mul, Bool.false_eq_true, if_false]
    have hp0 := F64.round_nonneg hprod0
    have hp1 := F64.round_mono hprod0 hprod1
    rw [F64.round_pred_one_mul_015] at hp1
    have := F64.round_mono
      (a := 3602879701896397 / 2 ^ 56 + F64.round (u * (5404319552844595 / 2 ^ 55)))
      (b := 3602879701896397 / 2 ^ 56 + 5404319552844594 / 2 ^ 55)
      (by positivity) (by linarith)
    rw [F64.round_005_add_pred_015] at this
    exact this.trans (by norm_num)
  · simp only [F64.mulAdd, if_true]
    have := F64.round_mono
      (a := 3602879701896397 / 2 ^ 56 + u * (5404319552844595 / 2 ^ 55))
      (b := 3602879701896397 / 2 ^ 56 + (1 - 1 / 2 ^ 53) * (5404319552844595 / 2 ^ 55))
      (by positivity) (by linarith)
    rwa [F64.round_005_add_pred_one_mul_015] at this

/-- Claim C14: for every draw, a `float64` in `[0, 1)`, the discount rate
`0.05 + u * (0.20 - 0.05)` is at least `0.05` and below `0.20`, whether the
two bounds are read as numbers or as `float64` constants. -/
theorem discountRate_range (fma : Bool) (u : ℚ) (hu : IsDraw u) :
    (5 / 100 ≤ discountRate fma u ∧ discountRate fma u < 20 / 100) ∧
      (F64.round (5 / 100) ≤ discountRate fma u ∧
        discountRate fma u < F64.round (20 / 100)) := by
  have hle := discountRate_le fma u hu
  have hge := (discountRate_bounds fma u hu.2.1 hu.2.2.le).1
  rw [F64.lit_005, F64.lit_020]
  change 3602879701896397 / 2 ^ 56 ≤ discountRate fma u at hge
  refine ⟨⟨le_trans (by norm_num) hge, lt_of_le_of_lt hle (by norm_num)⟩, hge,
    lt_of_le_of_lt hle (by norm_num)⟩

/-- Witness of claim C14: the draw `1/2`, with the discount rate `1/8`. -/
theorem discountRate_range_witness :
    IsDraw (1 / 2) ∧
      (5 / 100 ≤ discountRate false (1 / 2) ∧ discountRate false (1 / 2) < 20 / 100) ∧
      (F64.round (5 / 100) ≤ discountRate false (1 / 2) ∧
        discountRate false (1 / 2) < F64.round (20 / 100)) :=
  ⟨isDraw_half, discountRate_range false (1 / 2) isDraw_half⟩

/-! ## The clamp branch, the empty identifier and monotonicity in the length -/

/-- Counterexample to claim C15 as stated: called with the empty identifier
and the draw `0`, the clamp condition `newValueToPay >= debtValue` holds, as
`0 >= 0`, although the discount rate is positive, and the clamp branch
assigns the payment value. -/
theorem clamp_taken_on_empty :
    IsDraw 0 ∧
      newValueToPay false [] 0 ≥ (verifyCreditLimit false [] 0).1.DebtValue ∧
      ¬ (discountRate false 0 ≤ 0) ∧
      ¬ ((newValueToPay false [] 0 ≥ (verifyCreditLimit false [] 0).1.DebtValue →
          discountRate false 0 ≤ 0) ∧
        ¬ (newValueToPay false [] 0 ≥ (verifyCreditLimit false [] 0).1.DebtValue)) := by
  have hnv : newValueToPay false [] 0 = 0 := by
    simp only [newValueToPay, len, F64.ofInt, F64.mul, List.length_nil, Nat.cast_zero,
      Int.cast_zero, zero_mul, F64.round_zero]
  have hdv : (verifyCreditLimit false [] 0).1.DebtValue = 0 := by
    rw [verifyCreditLimit_nil]
  have hd : ¬ (discountRate false 0 ≤ 0) := by
    have := (discountRate_bounds false 0 (le_refl _) (by norm_num)).1
    change 3602879701896397 / 2 ^ 56 ≤ discountRate false 0 at this
    intro h
    have : (3602879701896397 / 2 ^ 56 : ℚ) ≤ 0 := this.trans h
    norm_num at this
  rw [hnv, hdv]
  exact ⟨isDraw_zero, le_refl _, hd, fun h => h.2 (le_refl _)⟩

/-- Claim C15, amended: for every identifier and every draw in `[0, 1)` the
discount rate is positive and the clamp condition `newValueToPay >=
debtValue` holds exactly for the empty identifier; so for a non-empty
identifier the clamp branch is never taken and the payment value is the
first `newValueToPay`. -/
theorem clamp_iff_empty (fma : Bool) (debtID : GoString) (u : ℚ) (hu0 : 0 ≤ u)
    (hu1 : u < 1) :
    0 < discountRate fma u ∧
      (newValueToPay fma debtID u ≥ (verifyCreditLimit fma debtID u).1.DebtValue ↔
        debtID = []) ∧
      (debtID ≠ [] →
        (verifyCreditLimit fma debtID u).1.PaymentValue = newValueToPay fma debtID u) := by
  have hd : 0 < discountRate fma u := by
    have := (discountRate_bounds fma u hu0 hu1.le).1
    change 3602879701896397 / 2 ^ 56 ≤ discountRate fma u at this
    exact lt_of_lt_of_le (by norm_num) this
  refine ⟨hd, ⟨fun h => ?_, fun h => ?_⟩, fun hne => paymentValue_unclamped fma debtID u hne
    hu0 hu1.le⟩
  · by_contra hne
    exact absurd h (not_le.2 (newValueToPay_lt fma debtID u hne hu0 hu1.le))
  · subst h
    have hnv : newValueToPay fma [] u = 0 := by
      simp only [newValueToPay, len, F64.ofInt, F64.mul, List.length_nil, Nat.cast_zero,
        Int.cast_zero, zero_mul, F64.round_zero]
    rw [hnv, verifyCreditLimit_nil]

/-- Witness of claim C15, amended: the identifier `abc` and the draw `1/4`. -/
theorem clamp_iff_empty_witness :
    (0 : ℚ) ≤ 1 / 4 ∧ (1 / 4 : ℚ) < 1 ∧ ([97, 98, 99] : GoString) ≠ [] ∧
      (verifyCreditLimit false [97, 98, 99] (1 / 4)).1.PaymentValue =
        newValueToPay false [97, 98, 99] (1 / 4) :=
  ⟨by norm_num, by norm_num, by simp,
    (clamp_iff_empty false [97, 98, 99] (1 / 4) (by norm_num) (by norm_num)).2.2 (by simp)⟩

/-- Claim C17: called with the empty identifier the evaluation returns, for
every draw, the payment value 0, the debt value 0 and one installment, with
a nil error; and for a draw in `[0, 1)` the payment value is positive
exactly when the identifier is not empty. -/
theorem empty_identifier_result (fma : Bool) (debtID : GoString) (u : ℚ) (hu0 : 0 ≤ u)
    (hu1 : u < 1) :
    (∀ v : ℚ, verifyCreditLimit fma [] v =
        ({ PaymentValue := 0, Installments := 1, DebtValue := 0 }, none)) ∧
      (0 < (verifyCreditLimit fma debtID u).1.PaymentValue ↔ debtID ≠ []) := by
  refine ⟨fun v => verifyCreditLimit_nil fma v, fun h hnil => ?_, fun hne => ?_⟩
  · subst hnil
    rw [verifyCreditLimit_nil] at h
    exact lt_irrefl _ h
  · have := paymentValue_ge fma debtID u hne hu0 hu1.le
    linarith

/-- Witness of claim C17: the draw `1/4` and the empty identifier. -/
theorem empty_identifier_result_witness :
    (0 : ℚ) ≤ 1 / 4 ∧ (1 / 4 : ℚ) < 1 ∧
      (∀ v : ℚ, verifyCreditLimit false [] v =
        ({ PaymentValue := 0, Installments := 1, DebtValue := 0 }, none)) ∧
      (0 < (verifyCreditLimit false [] (1 / 4)).1.PaymentValue ↔ ([] : GoString) ≠ []) :=
  ⟨by norm_num, by norm_num,
    empty_identifier_result false [] (1 / 4) (by norm_num) (by norm_num)⟩

/-- The debt value grows with the length. -/
theorem debtValue_mono (fma : Bool) (a b : GoString) (u : ℚ) (hlen : len a ≤ len b) :
    (verifyCreditLimit fma a u).1.DebtValue ≤ (verifyCreditLimit fma b u).1.DebtValue := by
  rw [debtValue_eq, debtValue_eq]
  unfold F64.mul F64.ofInt
  have h0 : (0 : ℚ) ≤ (len a : ℚ) := by unfold len; positivity
  have hab : (len a : ℚ) ≤ (len b : ℚ) := by exact_mod_cast hlen
  have h1 := F64.round_mono h0 hab
  have h2 := F64.round_nonneg h0
  exact F64.round_mono (by positivity) (by linarith)

/-- The payment value is never negative. -/
theorem paymentValue_nonneg (fma : Bool) (debtID : GoString) (u : ℚ) (hu0 : 0 ≤ u)
    (hu1 : u ≤ 1) : 0 ≤ (verifyCreditLimit fma debtID u).1.PaymentValue := by
  obtain ⟨m, hm1, _, hpv⟩ := paymentValue_eq fma debtID u hu0 hu1
  rw [hpv]
  have h80 : (0 : ℚ) ≤ F64.round (80 / 100) := F64.round_nonneg (by norm_num)
  exact F64.round_nonneg (mul_nonneg (debtValue_nonneg fma debtID u) (h80.trans hm1))

/-- The truncated quotient by 1000 grows with a non-negative dividend. -/
theorem toInt_div_mono {x y : ℚ} (hx : 0 ≤ x) (hxy : x ≤ y) :
    F64.toInt (F64.div x 1000) ≤ F64.toInt (F64.div y 1000) := by
  have hq : F64.div x 1000 ≤ F64.div y 1000 :=
    F64.round_mono (by positivity) (div_le_div_of_nonneg_right hxy (by norm_num))
  have hx0 : (0 : ℚ) ≤ F64.div x 1000 := F64.round_nonneg (by positivity)
  unfold F64.toInt
  rw [if_pos hx0, if_pos (hx0.trans hq)]
  exact Int.floor_le_floor hq

/-- Claim C19: for a fixed draw in `[0, 1)` the result is monotone in the
length of the identifier: a longer identifier has a debt value, a payment
value and installments at least as large. -/
theorem verifyCreditLimit_mono (fma : Bool) (a b : GoString) (u : ℚ) (hlen : len a ≤ len b)
    (hu0 : 0 ≤ u) (hu1 : u < 1) :
    (verifyCreditLimit fma a u).1.DebtValue ≤ (verifyCreditLimit fma b u).1.DebtValue ∧
      (verifyCreditLimit fma a u).1.PaymentValue ≤
        (verifyCreditLimit fma b u).1.PaymentValue ∧
      (verifyCreditLimit fma a u).1.Installments ≤
        (verifyCreditLimit fma b u).1.Installments := by
  have hdv := debtValue_mono fma a b u hlen
  have hpv : (verifyCreditLimit fma a u).1.PaymentValue ≤
      (verifyCreditLimit fma b u).1.PaymentValue := by
    by_cases ha : a = []
    · subst ha
      rw [verifyCreditLimit_nil]
      exact paymentValue_nonneg fma b u hu0 hu1.le
    · have hb : b ≠ [] := by
        intro hb
        subst hb
        have h1 : 0 < a.length := List.length_pos.2 ha
        have h2 : (a.length : ℤ) ≤ 0 := by simpa [len] using hlen
        omega
      rw [paymentValue_unclamped fma a u ha hu0 hu1.le,
        paymentValue_unclamped fma b u hb hu0 hu1.le]
      rw [debtValue_eq, debtValue_eq] at hdv
      obtain ⟨hlo, _⟩ := factor_bounds fma u hu0 hu1.le
      have h80 : (0 : ℚ) ≤ F64.round (80 / 100) := F64.round_nonneg (by norm_num)
      have hda := debtValue_nonneg fma a u
      rw [debtValue_eq] at hda
      unfold newValueToPay discountRate
      exact F64.round_mono (mul_nonneg hda (h80.trans hlo))
        (mul_le_mul_of_nonneg_right hdv (h80.trans hlo))
  refine ⟨hdv, hpv, ?_⟩
  have hq := toInt_div_mono (paymentValue_nonneg fma a u hu0 hu1.le) hpv
  rw [installments_eq fma a u, installments_eq fma b u]
  omega

/-- Witness of claim C19: the identifiers `a` and `abc` and the draw `1/4`. -/
theorem verifyCreditLimit_mono_witness :
    len [97] ≤ len [97, 98, 99] ∧ (0 : ℚ) ≤ 1 / 4 ∧ (1 / 4 : ℚ) < 1 ∧
      (verifyCreditLimit false [97] (1 / 4)).1.DebtValue ≤
        (verifyCreditLimit false [97, 98, 99] (1 / 4)).1.DebtValue ∧
      (verifyCreditLimit false [97] (1 / 4)).1.PaymentValue ≤
        (verifyCreditLimit false [97, 98, 99] (1 / 4)).1.PaymentValue ∧
      (verifyCreditLimit false [97] (1 / 4)).1.Installments ≤
        (verifyCreditLimit false [97, 98, 99] (1 / 4)).1.Installments :=
  ⟨by decide, by norm_num, by norm_num,
    verifyCreditLimit_mono false [97] [97, 98, 99] (1 / 4) (by decide) (by norm_num)
      (by norm_num)⟩

/-! ## The truncated quotient and the exact quotient -/

namespace F64

/-- The result of a rounding is a `float64`: rounding it again changes
nothing. -/
theorem round_idem {q : ℚ} (hq : 0 ≤ q) : round (round q) = round q := by
  rcases hq.eq_or_lt with h0 | hpos
  · rw [← h0, round_zero, round_zero]
  have hp := two_zpow_pos (ulpExp q)
  have hk0 : (0 : ℤ) ≤ rne (q / 2 ^ ulpExp q) :=
    le_rne (by simpa using div_nonneg hq hp.le)
  have hk1 : rne (q / 2 ^ ulpExp q) ≤ 2 ^ 53 := by
    have hx : q / 2 ^ ulpExp q ≤ ((2 ^ 53 : ℤ) : ℚ) := by
      rw [div_le_iff₀ hp]
      have : (2 : ℚ) ^ (ulpExp q + 53) = ((2 ^ 53 : ℤ) : ℚ) * 2 ^ ulpExp q := by
        rw [show ulpExp q + 53 = ulpExp q + ((53 : ℕ) : ℤ) by norm_num, two_zpow_add_nat]
        push_cast; ring
      rw [← this]
      exact (lt_ulp_top hpos).le
    exact rne_le hx
  have := round_repr (rne (q / 2 ^ ulpExp q)) (ulpExp q) hk0 hk1 (ulpExp_ge q)
  unfold round at this ⊢
  exact this

/-- A `float64` below `1000 * N`, itself the `float64` `M * 2 ^ e`, has a
`float64` quotient by 1000 below `N`: the quotient of the largest such value
is too far below `N` to round up to it. -/
theorem div_lt_of_lt {x : ℚ} (hx : round x = x) (hx0 : 0 ≤ x) (N M e : ℤ) (hN : 1 ≤ N)
    (hM : 2 ^ 52 < M) (hM' : M ≤ 2 ^ 53) (he : -1074 ≤ e)
    (h1000 : (1000 : ℚ) * N = M * 2 ^ e) (hlt : x < 1000 * N) : div x 1000 < N := by
  have hpe := two_zpow_pos e
  have hpred := le_pred hx hx0 M e hM hM' he (by rw [← h1000]; exact hlt)
  have hMq : (0 : ℚ) < M := by
    have : (0 : ℤ) < M := lt_trans (by norm_num) hM
    exact_mod_cast this
  have hMq' : (M : ℚ) ≤ 2 ^ 53 := by exact_mod_cast hM'
  have hMq'' : (2 : ℚ) ^ 52 < M := by exact_mod_cast hM
  have hNq : (1 : ℚ) ≤ N := by exact_mod_cast hN
  -- the quotient of the predecessor of `1000 * N`
  have hq0 : ((M : ℚ) - 1) * 2 ^ e / 1000 = N * ((M - 1) / M) := by
    have h2e : (2 : ℚ) ^ e = 1000 * N / M := by
      rw [eq_div_iff hMq.ne', h1000]; ring
    rw [h2e]
    field_simp
    ring
  have hfrac : (1 / 2 : ℚ) ≤ (M - 1) / M := by
    rw [le_div_iff₀ hMq]
    have : (2 : ℚ) ^ 52 = 4503599627370496 := by norm_num
    linarith
  have hnormal : (2 : ℚ) ^ (-1022 : ℤ) ≤ ((M : ℚ) - 1) * 2 ^ e / 1000 := by
    rw [hq0]
    have h2 : (2 : ℚ) ^ (-1022 : ℤ) ≤ 1 / 2 :=
      le_trans (two_zpow_le (show (-1022 : ℤ) ≤ -1 by norm_num)) (by norm_num)
    nlinarith
  have herr := (round_rel_error hnormal).2
  have hmono : div x 1000 ≤ round (((M : ℚ) - 1) * 2 ^ e / 1000) :=
    round_mono (by positivity) (div_le_div_of_nonneg_right hpred (by norm_num))
  have hgap : (((M : ℚ) - 1) / M) * (1 + 2 ^ (-53 : ℤ)) < 1 := by
    rw [div_mul_eq_mul_div, div_lt_one hMq]
    have : (2 : ℚ) ^ (-53 : ℤ) = 1 / 9007199254740992 := by norm_num
    have h53 : (2 : ℚ) ^ 53 = 9007199254740992 := by norm_num
    rw [this]
    rw [h53] at hMq'
    nlinarith
  calc div x 1000 ≤ round (((M : ℚ) - 1) * 2 ^ e / 1000) := hmono
    _ ≤ ((M : ℚ) - 1) * 2 ^ e / 1000 * (1 + 2 ^ (-53 : ℤ)) := herr
    _ = N * ((((M : ℚ) - 1) / M) * (1 + 2 ^ (-53 : ℤ))) := by rw [hq0]; ring
    _ < N * 1 := mul_lt_mul_of_pos_left hgap (by linarith)
    _ = N := by ring

/-- A `float64` below `1000 * N`, for `N` from 1 to 12, has a `float64`
quotient by 1000 below `N`. -/
theorem div_lt_of_lt_small {x : ℚ} (hx : round x = x) (hx0 : 0 ≤ x) (N : ℤ) (hN : 1 ≤ N)
    (hN' : N ≤ 12) (hlt : x < 1000 * N) : div x 1000 < N := by
  interval_cases N
  · exact div_lt_of_lt hx hx0 1 (1000 * 2 ^ 43) (-43) (by norm_num) (by norm_num)
      (by norm_num) (by norm_num) (by norm_num) hlt
  · exact div_lt_of_lt hx hx0 2 (2000 * 2 ^ 42) (-42) (by norm_num) (by norm_num)
      (by norm_num) (by norm_num) (by norm_num) hlt
  · exact div_lt_of_lt hx hx0 3 (3000 * 2 ^ 41) (-41) (by norm_num) (by norm_num)
      (by norm_num) (by norm_num) (by norm_num) hlt
  · exact div_lt_of_lt hx hx0 4 (4000 * 2 ^ 41) (-41) (by norm_num) (by norm_num)
      (by norm_num) (by norm_num) (by norm_num) hlt
  · exact div_lt_of_lt hx hx0 5 (5000 * 2 ^ 40) (-40) (by norm_num) (by norm_num)
      (by norm_num) (by norm_num) (by norm_num) hlt
  · exact div_lt_of_lt hx hx0 6 (6000 * 2 ^ 40) (-40) (by norm_num) (by norm_num)
      (by norm_num) (by norm_num) (by norm_num) hlt
  · exact div_lt_of_lt hx hx0 7 (7000 * 2 ^ 40) (-40) (by norm_num) (by norm_num)
      (by norm_num) (by norm_num) (by norm_num) hlt
  · exact div_lt_of_lt hx hx0 8 (8000 * 2 ^ 40) (-40) (by norm_num) (by norm_num)
      (by norm_num) (by norm_num) (by norm_num) hlt
  · exact div_lt_of_lt hx hx0 9 (9000 * 2 ^ 39) (-39) (by norm_num) (by norm_num)
      (by norm_num) (by norm_num) (by norm_num) hlt
  · exact div_lt_of_lt hx hx0 10 (10000 * 2 ^ 39) (-39) (by norm_num) (by norm_num)
      (by norm_num) (by norm_num) (by norm_num) hlt
  · exact div_lt_of_lt hx hx0 11 (11000 * 2 ^ 39) (-39) (by norm_num) (by norm_num)
      (by norm_num) (by norm_num) (by norm_num) hlt
  · exact div_lt_of_lt hx hx0 12 (12000 * 2 ^ 39) (-39) (by norm_num) (by norm_num)
      (by norm_num) (by norm_num) (by norm_num) hlt

end F64

/-- The payment value is a `float64`. -/
theorem paymentValue_repr (fma : Bool) (debtID : GoString) (u : ℚ) (hu0 : 0 ≤ u)
    (hu1 : u ≤ 1) :
    F64.round (verifyCreditLimit fma debtID u).1.PaymentValue =
      (verifyCreditLimit fma debtID u).1.PaymentValue := by
  obtain ⟨m, hm1, _, hpv⟩ := paymentValue_eq fma debtID u hu0 hu1
  rw [hpv]
  have h80 : (0 : ℚ) ≤ F64.round (80 / 100) := F64.round_nonneg (by norm_num)
  exact F64.round_idem (mul_nonneg (debtValue_nonneg fma debtID u) (h80.trans hm1))

/-- Clamped to `[1, 12]`, the truncation of the `float64` quotient of a
non-negative `float64` by 1000 is the floor of the exact quotient. -/
theorem clamp_toInt_div_eq {x : ℚ} (hx : F64.round x = x) (hx0 : 0 ≤ x) :
    min 12 (max 1 (F64.toInt (F64.div x 1000))) = min 12 (max 1 ⌊x / 1000⌋) := by
  have hq0 : (0 : ℚ) ≤ F64.div x 1000 := F64.round_nonneg (by positivity)
  have ht : F64.toInt (F64.div x 1000) = ⌊F64.div x 1000⌋ := by
    unfold F64.toInt
    rw [if_pos hq0]
  have hn0 : 0 ≤ ⌊x / 1000⌋ := Int.floor_nonneg.2 (by positivity)
  by_cases h12 : 12 ≤ ⌊x / 1000⌋
  · have hx12 : (1000 : ℚ) * ((12 : ℤ) : ℚ) ≤ x := by
      have := Int.le_floor.1 h12
      rw [le_div_iff₀ (by norm_num)] at this
      push_cast at this ⊢
      linarith
    have := le_toInt_div 12 (by norm_num) (by norm_num) hx12
    omega
  · push_neg at h12
    have hlo : (1000 : ℚ) * ((⌊x / 1000⌋ : ℤ) : ℚ) ≤ x := by
      have := Int.floor_le (x / 1000)
      rw [le_div_iff₀ (by norm_num)] at this
      linarith
    have hhi : x < 1000 * (((⌊x / 1000⌋ + 1 : ℤ)) : ℚ) := by
      have := Int.lt_floor_add_one (x / 1000)
      rw [div_lt_iff₀ (by norm_num)] at this
      push_cast
      linarith
    have h1 := le_toInt_div ⌊x / 1000⌋ hn0 (by omega) hlo
    have h2 := F64.div_lt_of_lt_small hx hx0 (⌊x / 1000⌋ + 1) (by omega) (by omega) hhi
    have h3 : ⌊F64.div x 1000⌋ < ⌊x / 1000⌋ + 1 := Int.floor_lt.2 h2
    rw [ht] at h1 ⊢
    have : ⌊F64.div x 1000⌋ = ⌊x / 1000⌋ := by omega
    rw [this]

/-- Claim C16: for every identifier and every draw in `[0, 1)` the
installments are `min(12, max(1, trunc(PaymentValue / 1000)))`, where the
truncation toward zero is a floor because the quotient is not negative; this
holds for the `float64` quotient the code computes and for the exact one. -/
theorem installments_formula (fma : Bool) (debtID : GoString) (u : ℚ) (hu0 : 0 ≤ u)
    (hu1 : u < 1) :
    (verifyCreditLimit fma debtID u).1.Installments =
        min 12 (max 1
          (F64.toInt (F64.div (verifyCreditLimit fma debtID u).1.PaymentValue 1000))) ∧
      F64.toInt (F64.div (verifyCreditLimit fma debtID u).1.PaymentValue 1000) =
        ⌊F64.div (verifyCreditLimit fma debtID u).1.PaymentValue 1000⌋ ∧
      (verifyCreditLimit fma debtID u).1.Installments =
        min 12 (max 1 ⌊(verifyCreditLimit fma debtID u).1.PaymentValue / 1000⌋) := by
  have hpv0 := paymentValue_nonneg fma debtID u hu0 hu1.le
  have hq0 : (0 : ℚ) ≤ F64.div (verifyCreditLimit fma debtID u).1.PaymentValue 1000 :=
    F64.round_nonneg (by positivity)
  refine ⟨installments_eq fma debtID u, ?_, ?_⟩
  · unfold F64.toInt
    rw [if_pos hq0]
  · rw [installments_eq fma debtID u]
    exact clamp_toInt_div_eq (paymentValue_repr fma debtID u hu0 hu1.le) hpv0

/-- Witness of claim C16: the identifier `abc` and the draw `1/4`. -/
theorem installments_formula_witness :
    (0 : ℚ) ≤ 1 / 4 ∧ (1 / 4 : ℚ) < 1 ∧
      (verifyCreditLimit false [97, 98, 99] (1 / 4)).1.Installments =
        min 12 (max 1
          (F64.toInt
            (F64.div (verifyCreditLimit false [97, 98, 99] (1 / 4)).1.PaymentValue 1000))) ∧
      F64.toInt (F64.div (verifyCreditLimit false [97, 98, 99] (1 / 4)).1.PaymentValue 1000) =
        ⌊F64.div (verifyCreditLimit false [97, 98, 99] (1 / 4)).1.PaymentValue 1000⌋ ∧
      (verifyCreditLimit false [97, 98, 99] (1 / 4)).1.Installments =
        min 12 (max 1 ⌊(verifyCreditLimit false [97, 98, 99] (1 / 4)).1.PaymentValue / 1000⌋) :=
  ⟨by norm_num, by norm_num,
    installments_formula false [97, 98, 99] (1 / 4) (by norm_num) (by norm_num)⟩

/-! ## The lengths at which the installment clamps take over -/

/-- An identifier of length at least `n` has a debt value of at least
`n * 200`. -/
theorem debtValue_ge_of_len (fma : Bool) (debtID : GoString) (u : ℚ) (n : ℤ) (hn0 : 0 ≤ n)
    (hn : n ≤ 2 ^ 45) (hlen : n ≤ len debtID) :
    (n : ℚ) * 200 ≤ (verifyCreditLimit fma debtID u).1.DebtValue := by
  rw [debtValue_eq]
  unfold F64.mul F64.ofInt
  have hn0q : (0 : ℚ) ≤ (n : ℚ) := by exact_mod_cast hn0
  have hlenq : (n : ℚ) ≤ (len debtID : ℚ) := by exact_mod_cast hlen
  have h1 := F64.round_mono hn0q hlenq
  rw [F64.round_intCast n hn0 (by omega)] at h1
  have h2 := F64.round_mono (a := (n : ℚ) * 200) (b := F64.round (len debtID : ℚ) * 200)
    (by positivity) (by linarith)
  have h3 := F64.round_intCast (n * 200) (by omega) (by omega)
  push_cast at h3
  rwa [h3] at h2

/-- The value `1023/1024` is a draw. -/
theorem isDraw_near_one : IsDraw (1023 / 1024) := by
  refine ⟨?_, by norm_num, by norm_num⟩
  have := F64.round_repr 1023 (-10) (by norm_num) (by norm_num) (by norm_num)
  norm_num at this ⊢
  exact this

/-- At the draw `1023/1024` the discount rate is at least `25/128` and so the
factor `1 - discountRate` at most `103/128`. -/
theorem factor_near_one (fma : Bool) :
    F64.sub 1 (discountRate fma (1023 / 1024)) ≤ 103 / 128 := by
  have h19 : F64.round (19 / 128) = 19 / 128 := by
    have := F64.round_repr 19 (-7) (by norm_num) (by norm_num) (by norm_num)
    norm_num at this ⊢
    exact this
  have h25 : F64.round (25 / 128) = 25 / 128 := by
    have := F64.round_repr 25 (-7) (by norm_num) (by norm_num) (by norm_num)
    norm_num at this ⊢
    exact this
  have h103 : F64.round (103 / 128) = 103 / 128 := by
    have := F64.round_repr 103 (-7) (by norm_num) (by norm_num) (by norm_num)
    norm_num at this ⊢
    exact this
  have hd : (25 / 128 : ℚ) ≤ discountRate fma (1023 / 1024) := by
    unfold discountRate
    rw [F64.lit_015, F64.lit_005]
    cases fma
    · simp only [F64.mulAdd, F64.add, F64.mul, Bool.false_eq_true, if_false]
      have hp := F64.round_mono (a := 19 / 128)
        (b := 1023 / 1024 * (5404319552844595 / 2 ^ 55)) (by norm_num) (by norm_num)
      rw [h19] at hp
      have := F64.round_mono (a := 25 / 128)
        (b := 3602879701896397 / 2 ^ 56 +
          F64.round (1023 / 1024 * (5404319552844595 / 2 ^ 55)))
        (by norm_num) (by
          have : (25 / 128 : ℚ) ≤ 3602879701896397 / 2 ^ 56 + 19 / 128 := by norm_num
          linarith)
      rwa [h25] at this
    · simp only [F64.mulAdd, if_true]
      have := F64.round_mono (a := 25 / 128)
        (b := 3602879701896397 / 2 ^ 56 + 1023 / 1024 * (5404319552844595 / 2 ^ 55))
        (by norm_num) (by norm_num)
      rwa [h25] at this
  have hd1 : discountRate fma (1023 / 1024) ≤ 1 := by
    have := (discountRate_bounds fma (1023 / 1024) (by norm_num) (by norm_num)).2
    change discountRate fma (1023 / 1024) ≤ 3602879701896397 / 2 ^ 54 at this
    exact this.trans (by norm_num)
  unfold F64.sub
  have := F64.round_mono (a := 1 - discountRate fma (1023 / 1024)) (b := 103 / 128)
    (by linarith) (by linarith)
  rwa [h103] at this

/-- Up to a length of 10 there is one installment for every draw in
`[0, 1)`: the payment value is at most `1900`. -/
theorem installments_eq_one_of_le (fma : Bool) (debtID : GoString) (u : ℚ)
    (hlen : len debtID ≤ 10) (hu0 : 0 ≤ u) (hu1 : u < 1) :
    (verifyCreditLimit fma debtID u).1.Installments = 1 := by
  obtain ⟨_, hhi⟩ := paymentValue_exact_band fma debtID u hu0 hu1.le (by omega)
  have hpv0 := paymentValue_nonneg fma debtID u hu0 hu1.le
  have hlenq : (len debtID : ℚ) ≤ 10 := by exact_mod_cast hlen
  have h31 : F64.round (31 / 16) = 31 / 16 := by
    have := F64.round_repr 31 (-4) (by norm_num) (by norm_num) (by norm_num)
    norm_num at this ⊢
    exact this
  have h := toInt_div_le_of_repr (x := (verifyCreditLimit fma debtID u).1.PaymentValue) 1
    (31 / 16) h31 (by norm_num) hpv0 (by linarith)
  rw [installments_eq]
  omega

/-- From a length of 11 on the draw `0` gives at least two installments: the
payment value is at least `2000`. -/
theorem two_le_installments_of_ge (fma : Bool) (debtID : GoString) (hlen : 11 ≤ len debtID) :
    2 ≤ (verifyCreditLimit fma debtID 0).1.Installments := by
  have hne : debtID ≠ [] := by
    intro h
    subst h
    simp [len] at hlen
  have hdv := debtValue_ge_of_len fma debtID 0 11 (by norm_num) (by norm_num) hlen
  have hpv : (2000 : ℚ) ≤ (verifyCreditLimit fma debtID 0).1.PaymentValue := by
    rw [paymentValue_unclamped fma debtID 0 hne (le_refl _) (by norm_num)]
    rw [debtValue_eq] at hdv
    unfold newValueToPay discountRate
    rw [factor_at_zero]
    unfold F64.mul
    have := F64.round_mono (a := 2000)
      (b := F64.mul (F64.ofInt (len debtID)) 200 * (4278419646001971 / 2 ^ 52))
      (by norm_num) (by
        have : (2000 : ℚ) ≤ 11 * 200 * (4278419646001971 / 2 ^ 52) := by norm_num
        have h95 : (0 : ℚ) ≤ 4278419646001971 / 2 ^ 52 := by norm_num
        have h1 : (11 : ℚ) * 200 * (4278419646001971 / 2 ^ 52) ≤
            F64.mul (F64.ofInt (len debtID)) 200 * (4278419646001971 / 2 ^ 52) :=
          mul_le_mul_of_nonneg_right (by simpa using hdv) h95
        linarith)
    have h2000 := F64.round_intCast 2000 (by norm_num) (by norm_num)
    norm_num at h2000
    rwa [h2000] at this
  have h := le_toInt_div (x := (verifyCreditLimit fma debtID 0).1.PaymentValue) 2
    (by norm_num) (by norm_num) (by norm_num; linarith)
  rw [installments_eq]
  omega

/-- From a length of 75 on there are twelve installments for every draw in
`[0, 1)`: the payment value is at least `12000`. -/
theorem installments_eq_twelve_of_ge (fma : Bool) (debtID : GoString) (u : ℚ)
    (hlen : 75 ≤ len debtID) (hu0 : 0 ≤ u) (hu1 : u < 1) :
    (verifyCreditLimit fma debtID u).1.Installments = 12 := by
  have hdv := debtValue_ge_of_len fma debtID u 75 (by norm_num) (by norm_num) hlen
  obtain ⟨m, hm1, _, hpv⟩ := paymentValue_eq fma debtID u hu0 hu1.le
  rw [F64.lit_080] at hm1
  have hpvge : (12000 : ℚ) ≤ (verifyCreditLimit fma debtID u).1.PaymentValue := by
    rw [hpv]
    unfold F64.mul
    have := F64.round_mono (a := 12000)
      (b := (verifyCreditLimit fma debtID u).1.DebtValue * m) (by norm_num) (by
        have hm0 : (0 : ℚ) ≤ m := le_trans (by norm_num) hm1
        have h1 : (75 : ℚ) * 200 * m ≤ (verifyCreditLimit fma debtID u).1.DebtValue * m :=
          mul_le_mul_of_nonneg_right (by simpa using hdv) hm0
        have h2 : (12000 : ℚ) ≤ 75 * 200 * (3602879701896397 / 2 ^ 52) := by norm_num
        have h3 : (75 : ℚ) * 200 * (3602879701896397 / 2 ^ 52) ≤ 75 * 200 * m :=
          mul_le_mul_of_nonneg_left hm1 (by norm_num)
        linarith)
    have h12000 := F64.round_intCast 12000 (by norm_num) (by norm_num)
    norm_num at h12000
    rwa [h12000] at this
  have h := le_toInt_div (x := (verifyCreditLimit fma debtID u).1.PaymentValue) 12
    (by norm_num) (by norm_num) (by norm_num; linarith)
  rw [installments_eq]
  omega

/-- Up to a length of 74 the draw `1023/1024` gives at most eleven
installments: the payment value is at most `11937.5`. -/
theorem installments_le_eleven_of_le (fma : Bool) (debtID : GoString)
    (hlen : len debtID ≤ 74) :
    (verifyCreditLimit fma debtID (1023 / 1024)).1.Installments ≤ 11 := by
  by_cases hne : debtID = []
  · subst hne
    rw [verifyCreditLimit_nil]
    norm_num
  have hdv := debtValue_exact fma debtID (1023 / 1024) (by omega)
  have hlen0 : (0 : ℚ) ≤ (len debtID : ℚ) := by unfold len; positivity
  have hlenq : (len debtID : ℚ) ≤ 74 := by exact_mod_cast hlen
  have hf := factor_near_one fma
  have hf0 : (0 : ℚ) ≤ F64.sub 1 (discountRate fma (1023 / 1024)) := by
    have h80 : (0 : ℚ) ≤ F64.round (80 / 100) := F64.round_nonneg (by norm_num)
    exact h80.trans (factor_bounds fma (1023 / 1024) (by norm_num) (by norm_num)).1
  have h11937 : F64.round (23875 / 2) = 23875 / 2 := by
    have := F64.round_repr 23875 (-1) (by norm_num) (by norm_num) (by norm_num)
    norm_num at this ⊢
    exact this
  have h191 : F64.round (191 / 16) = 191 / 16 := by
    have := F64.round_repr 191 (-4) (by norm_num) (by norm_num) (by norm_num)
    norm_num at this ⊢
    exact this
  have hpv : (verifyCreditLimit fma debtID (1023 / 1024)).1.PaymentValue ≤ 23875 / 2 := by
    rw [paymentValue_unclamped fma debtID (1023 / 1024) hne (by norm_num) (by norm_num)]
    rw [debtValue_eq] at hdv
    unfold newValueToPay
    rw [hdv]
    unfold F64.mul
    have := F64.round_mono
      (a := (len debtID : ℚ) * 200 * F64.sub 1 (discountRate fma (1023 / 1024)))
      (b := 23875 / 2) (by positivity) (by
        have h1 : (len debtID : ℚ) * 200 * F64.sub 1 (discountRate fma (1023 / 1024)) ≤
            (len debtID : ℚ) * 200 * (103 / 128) :=
          mul_le_mul_of_nonneg_left hf (by positivity)
        linarith)
    rwa [h11937] at this
  have hpv0 := paymentValue_nonneg fma debtID (1023 / 1024) (by norm_num) (by norm_num)
  have h := toInt_div_le_of_repr
    (x := (verifyCreditLimit fma debtID (1023 / 1024)).1.PaymentValue) 11 (191 / 16) h191
    (by norm_num) hpv0 (by linarith)
  rw [installments_eq]
  omega

/-- Claim C18: the installments are 1 for every draw exactly when the length
of the identifier is at most 10, and they are 12 for every draw exactly when
the length is at least 75. -/
theorem installments_thresholds (fma : Bool) (debtID : GoString) :
    ((∀ u : ℚ, IsDraw u → (verifyCreditLimit fma debtID u).1.Installments = 1) ↔
        len debtID ≤ 10) ∧
      ((∀ u : ℚ, IsDraw u → (verifyCreditLimit fma debtID u).1.Installments = 12) ↔
        75 ≤ len debtID) := by
  constructor
  · constructor
    · intro h
      by_contra hlen
      have h1 := h 0 isDraw_zero
      have h2 := two_le_installments_of_ge fma debtID (by omega)
      omega
    · intro hlen u hu
      exact installments_eq_one_of_le fma debtID u hlen hu.2.1 hu.2.2
  · constructor
    · intro h
      by_contra hlen
      have h1 := h (1023 / 1024) isDraw_near_one
      have h2 := installments_le_eleven_of_le fma debtID (by omega)
      omega
    · intro hlen u hu
      exact installments_eq_twelve_of_ge fma debtID u hlen hu.2.1 hu.2.2

/-- Witness of claim C18: ten bytes give one installment and seventy-five
bytes give twelve, for every draw. -/
theorem installments_thresholds_witness :
    (len (List.replicate 10 97) ≤ 10 ∧
        ∀ u : ℚ, IsDraw u →
          (verifyCreditLimit false (List.replicate 10 97) u).1.Installments = 1) ∧
      (75 ≤ len (List.replicate 75 97) ∧
        ∀ u : ℚ, IsDraw u →
          (verifyCreditLimit false (List.replicate 75 97) u).1.Installments = 12) :=
  ⟨⟨by simp [len],
      (installments_thresholds false (List.replicate 10 97)).1.2 (by simp [len])⟩,
    ⟨by simp [len],
      (installments_thresholds false (List.replicate 75 97)).2.2 (by simp [len])⟩⟩
